import Mathlib

/-!
Shallow embedding of `analyze_alb_config.py` (ALBConfigAnalyzer): the scan
document data model and the aggregation / statistics operations, with
theorems checking the specification's claims about them.

Modelling conventions:
* a JSON key that may be absent is an `Option` field;
* Python `d.get(key, default)` is `Option.getD`;
* Python bracket access `d[key]`, which raises `KeyError`, is a `req…`
  helper returning `Except KeyErr …`; an operation that performs bracket
  accesses is itself `Except`-valued and aborts at the first failure;
* float arithmetic on percentages is modelled over `ℚ`;
* `print`-based output is modelled as the structured values the code
  computes and prints, in the order it prints them.
-/

namespace AlbAnalyzer

structure WebACLInfo where
  acl_name : Option String
  acl_id : Option String
  acl_arn : Option String
deriving Repr, DecidableEq

structure WafAssociation where
  has_waf : Option Bool
  webACL : Option WebACLInfo
deriving Repr, DecidableEq

structure StateInfo where
  code : Option String
deriving Repr, DecidableEq

structure BasicInfo where
  loadBalancerName : Option String
  lbType : Option String
  friendlyType : Option String
  state : Option StateInfo
  dnsName : Option String
  scheme : Option String
  vpcId : Option String
deriving Repr, DecidableEq

inductive RuleObj where
  | mk
deriving Repr, DecidableEq

structure Listener where
  protocol : Option String
  rules : Option (List RuleObj)
deriving Repr, DecidableEq

structure TargetHealthState where
  health_state : Option String
deriving Repr, DecidableEq

structure TargetHealthEntry where
  targetHealth : Option TargetHealthState
deriving Repr, DecidableEq

structure TargetGroup where
  protocol : Option String
  target_health : Option (List TargetHealthEntry)
deriving Repr, DecidableEq

structure LoadBalancerRecord where
  basic_info : Option BasicInfo
  waf_association : Option WafAssociation
  listeners : Option (List Listener)
  target_groups : Option (List TargetGroup)
deriving Repr, DecidableEq

structure RegionScan where
  region : Option String
  load_balancers : Option (List LoadBalancerRecord)
deriving Repr, DecidableEq

structure AccountInfo where
  account_id : Option String
deriving Repr, DecidableEq

structure AccountScan where
  account_info : Option AccountInfo
  profile : Option String
  scan_time : Option String
  scan_mode : Option String
  regions : Option (List RegionScan)
deriving Repr, DecidableEq

/-- The top-level JSON document: a list of account objects. -/
abbrev ScanDocument := List AccountScan

/-- Source: `KeyError` raised by a Python bracket access on a missing key. -/
inductive KeyErr where
  | keyError (key : String)
deriving Repr, DecidableEq

/-- Source: `account.get('account_info', \x7b\x7d).get('account_id', 'Unknown')` -/
def getAccountId (a : AccountScan) : String :=
  ((a.account_info.getD ⟨none⟩).account_id).getD "Unknown"

/-- Source: `account.get('profile', 'Unknown')` -/
def getProfile (a : AccountScan) : String :=
  a.profile.getD "Unknown"

/-- Source: `account.get('scan_mode', 'unknown')` -/
def accountMode (a : AccountScan) : String :=
  a.scan_mode.getD "unknown"

/-- Source: `account.get('regions', [])` -/
def getRegions (a : AccountScan) : List RegionScan :=
  a.regions.getD []

/-- Source: `region_data.get('load_balancers', [])` -/
def getLoadBalancers (r : RegionScan) : List LoadBalancerRecord :=
  r.load_balancers.getD []

/-- Source: `region_data['region']` (bracket access: raises when absent). -/
def reqRegion (r : RegionScan) : Except KeyErr String :=
  match r.region with
  | some s => .ok s
  | none => .error (.keyError "region")

/-- Source: `alb['waf_association']` (bracket access: raises when absent). -/
def reqWaf (alb : LoadBalancerRecord) : Except KeyErr WafAssociation :=
  match alb.waf_association with
  | some w => .ok w
  | none => .error (.keyError "waf_association")

/-- Source: `waf['has_waf']` (bracket access: raises when absent). -/
def reqHasWaf (w : WafAssociation) : Except KeyErr Bool :=
  match w.has_waf with
  | some b => .ok b
  | none => .error (.keyError "has_waf")

/-- Source: `alb['waf_association']['has_waf']` as used in the guarded traversals. -/
def reqAlbHasWaf (alb : LoadBalancerRecord) : Except KeyErr Bool := do
  let w ← reqWaf alb
  reqHasWaf w

/-- Source: `alb.get('waf_association', \x7b\x7d)` -/
def wafD (alb : LoadBalancerRecord) : WafAssociation :=
  alb.waf_association.getD ⟨none, none⟩

/-- Truthiness of `waf.get('has_waf')` (absent key is falsy). -/
def hasWafD (alb : LoadBalancerRecord) : Bool :=
  (wafD alb).has_waf.getD false

/-- Source: `waf.get('WebACL', \x7b\x7d)` -/
def webACLD (w : WafAssociation) : WebACLInfo :=
  w.webACL.getD ⟨none, none, none⟩

/-- Source: `alb.get('basic_info', \x7b\x7d)` -/
def basicD (alb : LoadBalancerRecord) : BasicInfo :=
  alb.basic_info.getD ⟨none, none, none, none, none, none, none⟩

/-- Source: `alb.get('listeners', [])` -/
def albListeners (alb : LoadBalancerRecord) : List Listener :=
  alb.listeners.getD []

/-- Source: `alb.get('target_groups', [])` -/
def albTargetGroups (alb : LoadBalancerRecord) : List TargetGroup :=
  alb.target_groups.getD []

/-- Source: `listener.get('Rules', [])` -/
def listenerRules (l : Listener) : List RuleObj :=
  l.rules.getD []

/-- Source: `listener.get('Protocol', 'Unknown')` -/
def listenerProtocol (l : Listener) : String :=
  l.protocol.getD "Unknown"

/-- Source: `tg.get('Protocol', 'Unknown')` -/
def tgProtocol (tg : TargetGroup) : String :=
  tg.protocol.getD "Unknown"

/-- Source: `tg.get('target_health', [])` -/
def tgTargetHealth (tg : TargetGroup) : List TargetHealthEntry :=
  tg.target_health.getD []

/-- Source: `target.get('TargetHealth', \x7b\x7d).get('State', 'Unknown')` -/
def healthStateOf (t : TargetHealthEntry) : String :=
  ((t.targetHealth.getD ⟨none⟩).health_state).getD "Unknown"

/-- All load-balancer records of the document, in traversal order
(account, then region, then load balancer). -/
def allRecords (doc : ScanDocument) : List LoadBalancerRecord :=
  doc.flatMap (fun a => (getRegions a).flatMap getLoadBalancers)

/- ------------------------------------------------------------------ -/
/- `analyze_waf_coverage`                                             -/
/- ------------------------------------------------------------------ -/

structure AccountStat where
  account_id : String
  profile : String
  total : Nat
  with_waf : Nat
  without_waf : Nat
  coverage : ℚ
deriving Repr, DecidableEq

structure GlobalStat where
  total : Nat
  with_waf : Nat
  without_waf : Nat
  coverage : ℚ
deriving Repr, DecidableEq

/-- Source: `sum(1 for alb in albs if alb['waf_association']['has_waf'])` -/
def countWithWaf : List LoadBalancerRecord → Except KeyErr Nat
  | [] => .ok 0
  | alb :: rest => do
      let b ← reqAlbHasWaf alb
      let n ← countWithWaf rest
      pure ((if b then 1 else 0) + n)

/-- The per-account region loop of `analyze_waf_coverage`:
accumulates `(account_albs, account_with_waf)`. -/
def accountCounts : List RegionScan → Except KeyErr (Nat × Nat)
  | [] => .ok (0, 0)
  | r :: rest => do
      let w ← countWithWaf (getLoadBalancers r)
      let (t', w') ← accountCounts rest
      pure ((getLoadBalancers r).length + t', w + w')

/-- The main loop of `analyze_waf_coverage`: the per-account stats list
together with the running global `(total, with_waf, without_waf)`. -/
def wafCoverageAux : List AccountScan → Except KeyErr (List AccountStat × Nat × Nat × Nat)
  | [] => .ok ([], 0, 0, 0)
  | a :: rest => do
      let (t, w) ← accountCounts (getRegions a)
      let wo := t - w
      let stat : AccountStat :=
        ⟨getAccountId a, getProfile a, t, w, wo,
          if t > 0 then (w : ℚ) / (t : ℚ) * 100 else 0⟩
      let (stats, gt, gw, gwo) ← wafCoverageAux rest
      pure (stat :: stats, t + gt, w + gw, wo + gwo)

/-- Source: `analyze_waf_coverage`: per-account stats plus the global aggregate. -/
def analyzeWafCoverage (doc : ScanDocument) :
    Except KeyErr (List AccountStat × GlobalStat) := do
  let (stats, gt, gw, gwo) ← wafCoverageAux doc
  pure (stats, ⟨gt, gw, gwo, if gt > 0 then (gw : ℚ) / (gt : ℚ) * 100 else 0⟩)

/- ------------------------------------------------------------------ -/
/- `find_without_waf`                                                 -/
/- ------------------------------------------------------------------ -/

structure UnwafRegionGroup where
  region : String
  albs : List LoadBalancerRecord
deriving Repr, DecidableEq

structure UnwafAccountGroup where
  account_id : String
  profile : String
  region_groups : List UnwafRegionGroup
deriving Repr, DecidableEq

/-- Source: `[alb for alb in albs if not alb['waf_association']['has_waf']]` -/
def filterUnwaf : List LoadBalancerRecord → Except KeyErr (List LoadBalancerRecord)
  | [] => .ok []
  | alb :: rest => do
      let b ← reqAlbHasWaf alb
      let rest' ← filterUnwaf rest
      pure (if b then rest' else alb :: rest')

/-- Per-account region loop of `find_without_waf`: only regions with at
least one unprotected load balancer are reported. -/
def unwafRegions (acc : AccountScan) : List RegionScan → Except KeyErr (List UnwafRegionGroup)
  | [] => .ok []
  | r :: rest => do
      let reg ← reqRegion r
      let u ← filterUnwaf (getLoadBalancers r)
      let rest' ← unwafRegions acc rest
      pure (if u.isEmpty then rest' else ⟨reg, u⟩ :: rest')

/-- Source: `find_without_waf`: accounts printed only once some region of theirs
has an unprotected load balancer; empty accounts are omitted. -/
def findWithoutWaf : ScanDocument → Except KeyErr (List UnwafAccountGroup)
  | [] => .ok []
  | a :: rest => do
      let gs ← unwafRegions a (getRegions a)
      let rest' ← findWithoutWaf rest
      pure (if gs.isEmpty then rest'
            else ⟨getAccountId a, getProfile a, gs⟩ :: rest')

/- ------------------------------------------------------------------ -/
/- `analyze_by_type`                                                  -/
/- ------------------------------------------------------------------ -/

/-- A `defaultdict(int)` increment: Python dicts preserve insertion order,
so a new key is appended and an existing key is bumped in place. -/
def bump (m : List (String × Nat)) (k : String) : List (String × Nat) :=
  match m with
  | [] => [(k, 1)]
  | (k', n) :: rest =>
      if k' = k then (k', n + 1) :: rest else (k', n) :: bump rest k

/-- Source: `alb.get('basic_info', \x7b\x7d).get('FriendlyType', 'Unknown')` -/
def friendlyTypeOf (alb : LoadBalancerRecord) : String :=
  (basicD alb).friendlyType.getD "Unknown"

/-- The `type_stats` defaultdict of `analyze_by_type`, in insertion
(first-encountered) order. -/
def typeStats (doc : ScanDocument) : List (String × Nat) :=
  doc.foldl
    (fun m a =>
      (getRegions a).foldl
        (fun m r =>
          (getLoadBalancers r).foldl
            (fun m alb => bump m (friendlyTypeOf alb)) m)
        m)
    []

/-- Descending-by-count comparison used by
`sorted(..., key=lambda x: x[1], reverse=True)`. -/
def byCountDesc (a b : String × Nat) : Bool :=
  decide (b.2 ≤ a.2)

/-- Source: `analyze_by_type`: type counts sorted descending by count; Python's
`sorted` is stable, as is `List.mergeSort`. -/
def analyzeByType (doc : ScanDocument) : List (String × Nat) :=
  (typeStats doc).mergeSort byCountDesc

/- ------------------------------------------------------------------ -/
/- `analyze_by_region`                                                -/
/- ------------------------------------------------------------------ -/

/-- One `region_stats` entry: `(total, with_waf)`. -/
def bumpRegion (m : List (String × Nat × Nat)) (k : String) (t w : Nat) :
    List (String × Nat × Nat) :=
  match m with
  | [] => [(k, t, w)]
  | (k', t', w') :: rest =>
      if k' = k then (k', t' + t, w' + w) :: rest
      else (k', t', w') :: bumpRegion rest k t w

/-- The per-account region loop of `analyze_by_region`. -/
def regionStatsRegions (m : List (String × Nat × Nat)) :
    List RegionScan → Except KeyErr (List (String × Nat × Nat))
  | [] => .ok m
  | r :: rest => do
      let reg ← reqRegion r
      let w ← countWithWaf (getLoadBalancers r)
      regionStatsRegions (bumpRegion m reg (getLoadBalancers r).length w) rest

/-- The accumulation loop of `analyze_by_region` over all accounts. -/
def regionStatsAux (m : List (String × Nat × Nat)) :
    ScanDocument → Except KeyErr (List (String × Nat × Nat))
  | [] => .ok m
  | a :: rest => do
      let m' ← regionStatsRegions m (getRegions a)
      regionStatsAux m' rest

/-- Descending-by-total comparison for the region report. -/
def byTotalDesc (a b : String × Nat × Nat) : Bool :=
  decide (b.2.1 ≤ a.2.1)

/-- Source: `analyze_by_region`: per-region `(region, total, with_waf, coverage)`
sorted descending by total. -/
def analyzeByRegion (doc : ScanDocument) :
    Except KeyErr (List (String × Nat × Nat × ℚ)) := do
  let m ← regionStatsAux [] doc
  pure ((m.mergeSort byTotalDesc).map
    (fun e => (e.1, e.2.1, e.2.2,
      if e.2.1 > 0 then (e.2.2 : ℚ) / (e.2.1 : ℚ) * 100 else 0)))

/- ------------------------------------------------------------------ -/
/- `search`                                                           -/
/- ------------------------------------------------------------------ -/

/-- Character-list equality up to the needle's length (needle starts
the haystack). -/
def chPre : List Char → List Char → Bool
  | [], _ => true
  | _ :: _, [] => false
  | a :: ps, b :: hs => a == b && chPre ps hs

/-- Python's substring operator `needle in hay`; the empty needle
matches everything. -/
def strContains : List Char → List Char → Bool
  | p, [] => p.isEmpty
  | p, c :: rest => chPre p (c :: rest) || strContains p rest

/-- Python `str.lower()` as a character list (per-character lowercasing). -/
def lowerL (s : String) : List Char :=
  s.toList.map Char.toLower

/-- Source: `alb.get('basic_info', \x7b\x7d).get('LoadBalancerName', '')` -/
def lbName (alb : LoadBalancerRecord) : String :=
  (basicD alb).loadBalancerName.getD ""

/-- Source: `name_pattern.lower() in alb.get('basic_info', \x7b\x7d).get('LoadBalancerName', '').lower()` -/
def nameMatches (pat : String) (alb : LoadBalancerRecord) : Bool :=
  strContains (lowerL pat) (lowerL (lbName alb))

structure SearchGroup where
  account_id : String
  profile : String
  region : String
  albs : List LoadBalancerRecord
deriving Repr, DecidableEq

/-- Per-account region loop of `search`: groups with no match are not
printed. -/
def searchRegions (pat : String) (acc : AccountScan) :
    List RegionScan → Except KeyErr (List SearchGroup)
  | [] => .ok []
  | r :: rest => do
      let reg ← reqRegion r
      let ms := (getLoadBalancers r).filter (nameMatches pat)
      let rest' ← searchRegions pat acc rest
      pure (if ms.isEmpty then rest'
            else ⟨getAccountId acc, getProfile acc, reg, ms⟩ :: rest')

/-- Source: `search(name_pattern)`: case-insensitive substring match on the
load-balancer name, grouped by account and region in document order. -/
def search (doc : ScanDocument) (pat : String) : Except KeyErr (List SearchGroup) :=
  match doc with
  | [] => .ok []
  | a :: rest => do
      let gs ← searchRegions pat a (getRegions a)
      let rest' ← search rest pat
      pure (gs ++ rest')

/- ------------------------------------------------------------------ -/
/- `list_all_albs`                                                    -/
/- ------------------------------------------------------------------ -/

structure LbDisplay where
  name : String
  lb_type : String
  state_code : String
  dns : String
  has_waf : Bool
  waf_name : Option String
deriving Repr, DecidableEq

/-- The fields `list_all_albs` prints for one load balancer. -/
def displayOf (alb : LoadBalancerRecord) : LbDisplay :=
  { name := (basicD alb).loadBalancerName.getD "Unknown"
    lb_type := (basicD alb).friendlyType.getD ((basicD alb).lbType.getD "Unknown")
    state_code := (((basicD alb).state.getD ⟨none⟩).code).getD "Unknown"
    dns := (basicD alb).dnsName.getD "N/A"
    has_waf := hasWafD alb
    waf_name :=
      if hasWafD alb then some ((webACLD (wafD alb)).acl_name.getD "Unknown")
      else none }

/-- Per-account region loop of `list_all_albs`: a region heading is
printed only when the region has load balancers. -/
def listRegions : List RegionScan → Except KeyErr (List (String × List LbDisplay))
  | [] => .ok []
  | r :: rest => do
      let reg ← reqRegion r
      let albs := getLoadBalancers r
      let rest' ← listRegions rest
      pure (if albs.isEmpty then rest'
            else (reg, albs.map displayOf) :: rest')

/-- Source: `list_all_albs`: every account is printed; regions with load
balancers are listed under it. -/
def listAllAlbs : ScanDocument → Except KeyErr (List (String × String × List (String × List LbDisplay)))
  | [] => .ok []
  | a :: rest => do
      let rs ← listRegions (getRegions a)
      let rest' ← listAllAlbs rest
      pure ((getAccountId a, getProfile a, rs) :: rest')

/- ------------------------------------------------------------------ -/
/- `analyze_advanced_stats`                                           -/
/- ------------------------------------------------------------------ -/

/-- One assignment `self.scan_modes[account_id] = mode`: a later account
with the same id overwrites the earlier entry. -/
def setMode (m : List (String × String)) (k v : String) : List (String × String) :=
  match m with
  | [] => [(k, v)]
  | (k', v') :: rest =>
      if k' = k then (k', v) :: rest else (k', v') :: setMode rest k v

/-- The `self.scan_modes` dict built in `__init__`, keyed by account id. -/
def scanModes (doc : ScanDocument) : List (String × String) :=
  doc.foldl (fun m a => setMode m (getAccountId a) (accountMode a)) []

/-- Source: `mode in ['standard', 'full']` -/
def isStdOrFull (mode : String) : Bool :=
  mode = "standard" || mode = "full"

/-- Source: `any(mode in ['standard', 'full'] for mode in self.scan_modes.values())` -/
def hasAdvancedData (doc : ScanDocument) : Bool :=
  (scanModes doc).any (fun p => isStdOrFull p.2)

/-- Source: `any(mode == 'full' for mode in self.scan_modes.values())` -/
def hasFullMode (doc : ScanDocument) : Bool :=
  (scanModes doc).any (fun p => p.2 = "full")

/-- The counters and `defaultdict`s accumulated by the main loop of
`analyze_advanced_stats`. -/
structure AdvAcc where
  total_listeners : Nat
  total_target_groups : Nat
  total_rules : Nat
  total_targets : Nat
  health_states : List (String × Nat)
  listener_protocols : List (String × Nat)
  target_group_protocols : List (String × Nat)
deriving Repr, DecidableEq

def advInit : AdvAcc := ⟨0, 0, 0, 0, [], [], []⟩

/-- The body of the per-listener loop (protocol bump, plus rule count in
full mode). -/
def advListenerStep (mode : String) (st : AdvAcc) (l : Listener) : AdvAcc :=
  let st := { st with listener_protocols := bump st.listener_protocols (listenerProtocol l) }
  if mode = "full" then
    { st with total_rules := st.total_rules + (listenerRules l).length }
  else st

/-- The body of the per-target-health loop (full mode only). -/
def advHealthStep (st : AdvAcc) (t : TargetHealthEntry) : AdvAcc :=
  { st with health_states := bump st.health_states (healthStateOf t) }

/-- The body of the per-target-group loop. -/
def advTgStep (mode : String) (st : AdvAcc) (tg : TargetGroup) : AdvAcc :=
  let st := { st with target_group_protocols := bump st.target_group_protocols (tgProtocol tg) }
  if mode = "full" then
    let st := { st with total_targets := st.total_targets + (tgTargetHealth tg).length }
    (tgTargetHealth tg).foldl advHealthStep st
  else st

/-- The body of the per-load-balancer loop: listeners and target groups
are counted only when the account's scan mode is standard or full. -/
def advAlbStep (mode : String) (st : AdvAcc) (alb : LoadBalancerRecord) : AdvAcc :=
  if isStdOrFull mode then
    let st := { st with total_listeners := st.total_listeners + (albListeners alb).length }
    let st := (albListeners alb).foldl (advListenerStep mode) st
    let st := { st with total_target_groups := st.total_target_groups + (albTargetGroups alb).length }
    (albTargetGroups alb).foldl (advTgStep mode) st
  else st

/-- Accumulation over one account. -/
def advAccountStep (st : AdvAcc) (a : AccountScan) : AdvAcc :=
  (getRegions a).foldl
    (fun st r => (getLoadBalancers r).foldl (advAlbStep (accountMode a)) st)
    st

/-- The whole accumulation loop of `analyze_advanced_stats`. -/
def advFold (doc : ScanDocument) : AdvAcc :=
  doc.foldl advAccountStep advInit

/-- The health-state report printed in full mode: states sorted
descending by count, with `count / total_targets * 100` percentages
(0 when the denominator is 0). -/
def healthReport (st : AdvAcc) : List (String × Nat × ℚ) :=
  (st.health_states.mergeSort byCountDesc).map
    (fun e => (e.1, e.2,
      if st.total_targets > 0 then (e.2 : ℚ) / (st.total_targets : ℚ) * 100 else 0))

structure AdvancedStats where
  acc : AdvAcc
  full_report : Option (List (String × Nat × ℚ))
deriving Repr, DecidableEq

/-- The result of `analyze_advanced_stats`: either the insufficient-scan-
depth notice naming the modes that would enable it, or the statistics
(with the full-mode section only when some scan mode is `full`). -/
inductive AdvancedResult where
  | insufficient (requiredModes : List String)
  | stats (s : AdvancedStats)
deriving Repr, DecidableEq

def analyzeAdvancedStats (doc : ScanDocument) : AdvancedResult :=
  if hasAdvancedData doc then
    let st := advFold doc
    .stats ⟨st, if hasFullMode doc then some (healthReport st) else none⟩
  else .insufficient ["standard", "full"]

/- ------------------------------------------------------------------ -/
/- `export_csv`                                                       -/
/- ------------------------------------------------------------------ -/

/-- The fixed CSV header. -/
def csvFieldnames : List String :=
  ["Account_ID", "Profile", "Region", "ALB_Name", "Type",
   "State", "Scheme", "DNS_Name", "VPC_ID",
   "Has_WAF", "WAF_Name", "WAF_ID", "WAF_ARN",
   "Listener_Count", "TargetGroup_Count"]

structure CsvRow where
  account_id : String
  profile : String
  region : String
  alb_name : String
  lb_type : String
  state_code : String
  scheme : String
  dns_name : String
  vpc_id : String
  has_waf : String
  waf_name : String
  waf_id : String
  waf_arn : String
  listener_count : Nat
  target_group_count : Nat
deriving Repr, DecidableEq

/-- The row dict built by `export_csv` for one load balancer. -/
def rowOf (accountId profile region : String) (alb : LoadBalancerRecord) : CsvRow :=
  { account_id := accountId
    profile := profile
    region := region
    alb_name := (basicD alb).loadBalancerName.getD ""
    lb_type := (basicD alb).friendlyType.getD ((basicD alb).lbType.getD "")
    state_code := (((basicD alb).state.getD ⟨none⟩).code).getD ""
    scheme := (basicD alb).scheme.getD ""
    dns_name := (basicD alb).dnsName.getD ""
    vpc_id := (basicD alb).vpcId.getD ""
    has_waf := if hasWafD alb then "Yes" else "No"
    waf_name := if hasWafD alb then (webACLD (wafD alb)).acl_name.getD "" else ""
    waf_id := if hasWafD alb then (webACLD (wafD alb)).acl_id.getD "" else ""
    waf_arn := if hasWafD alb then (webACLD (wafD alb)).acl_arn.getD "" else ""
    listener_count := (albListeners alb).length
    target_group_count := (albTargetGroups alb).length }

/-- The cells of a row, in the order of `csvFieldnames`. -/
def rowCells (row : CsvRow) : List String :=
  [row.account_id, row.profile, row.region, row.alb_name, row.lb_type,
   row.state_code, row.scheme, row.dns_name, row.vpc_id,
   row.has_waf, row.waf_name, row.waf_id, row.waf_arn,
   toString row.listener_count, toString row.target_group_count]

/-- The document traversal shared by `export_csv`: each load balancer
with its account id, profile and region, in document order. -/
def ctxRegions (aid prof : String) : List RegionScan →
    Except KeyErr (List (String × String × String × LoadBalancerRecord))
  | [] => .ok []
  | r :: rest => do
      let reg ← reqRegion r
      let rest' ← ctxRegions aid prof rest
      pure ((getLoadBalancers r).map (fun alb => (aid, prof, reg, alb)) ++ rest')

def recordsWithCtx : ScanDocument →
    Except KeyErr (List (String × String × String × LoadBalancerRecord))
  | [] => .ok []
  | a :: rest => do
      let cs ← ctxRegions (getAccountId a) (getProfile a) (getRegions a)
      let rest' ← recordsWithCtx rest
      pure (cs ++ rest')

/-- Source: `export_csv`: one row per load balancer, in traversal order. -/
def exportCsv (doc : ScanDocument) : Except KeyErr (List CsvRow) := do
  let cs ← recordsWithCtx doc
  pure (cs.map (fun c => rowOf c.1 c.2.1 c.2.2.1 c.2.2.2))

/- ------------------------------------------------------------------ -/
/- Key-presence predicates                                            -/
/- ------------------------------------------------------------------ -/

/-- Every traversed `RegionScan` carries the `region` key. -/
def regionsOk (doc : ScanDocument) : Bool :=
  doc.all (fun a => (getRegions a).all (fun r => r.region.isSome))

/-- The `waf_association` key (with its `has_waf` sub-key) is present on
every record. -/
def albWafKeyOk (alb : LoadBalancerRecord) : Bool :=
  match alb.waf_association with
  | some w => w.has_waf.isSome
  | none => false

def wafKeysOk (doc : ScanDocument) : Bool :=
  doc.all (fun a => (getRegions a).all (fun r => (getLoadBalancers r).all albWafKeyOk))

/-- Some record lacks the `waf_association` key itself. -/
def hasRecordWithoutWafKey (doc : ScanDocument) : Bool :=
  doc.any (fun a => (getRegions a).any (fun r =>
    (getLoadBalancers r).any (fun alb => alb.waf_association.isNone)))

/-- Some traversed `RegionScan` lacks the `region` key. -/
def hasRegionWithoutKey (doc : ScanDocument) : Bool :=
  doc.any (fun a => (getRegions a).any (fun r => r.region.isNone))

instance {ε α : Type} [DecidableEq ε] [DecidableEq α] : DecidableEq (Except ε α) := fun x y =>
  match x, y with
  | .ok a, .ok b => if h : a = b then .isTrue (by rw [h]) else .isFalse (by intro hc; cases hc; exact h rfl)
  | .error a, .error b => if h : a = b then .isTrue (by rw [h]) else .isFalse (by intro hc; cases hc; exact h rfl)
  | .ok _, .error _ => .isFalse (by intro hc; cases hc)
  | .error _, .ok _ => .isFalse (by intro hc; cases hc)

/- Witness inputs shared by several witnesses below. -/

def mkAlb (hw : Bool) (nm : String) : LoadBalancerRecord :=
  ⟨some ⟨some nm, some "application", some "ALB", some ⟨some "active"⟩,
     some "dns.example", some "internet-facing", some "vpc-1"⟩,
   some ⟨some hw, if hw then some ⟨some "acl", some "acl-id", some "acl-arn"⟩ else none⟩,
   none, none⟩

def mkRegion (nm : String) (albs : List LoadBalancerRecord) : RegionScan :=
  ⟨some nm, some albs⟩

def mkAccount (id mode : String) (rs : List RegionScan) : AccountScan :=
  ⟨some ⟨some id⟩, some "default", some "2024-01-01", some mode, some rs⟩

def wdocC2 : ScanDocument :=
  [mkAccount "111111111111" "quick"
    [mkRegion "us-east-1" [mkAlb true "prod-web", mkAlb false "dev-api"]],
   mkAccount "222222222222" "quick" [mkRegion "eu-west-1" []]]

/-- The successful result of `analyze_waf_coverage` on `wdocC2`,
extracted so witnesses can name it. -/
def wcovPairC2 : List AccountStat × GlobalStat :=
  match analyzeWafCoverage wdocC2 with
  | .ok p => p
  | .error _ => ([], ⟨0, 0, 0, 0⟩)

def wdocC8 : ScanDocument :=
  [mkAccount "333333333333" "quick"
    [mkRegion "ap-southeast-1"
      [mkAlb true "edge-web", ⟨none, some ⟨some false, none⟩, none, none⟩]]]

def wsearchC8 : List SearchGroup :=
  match search wdocC8 "" with
  | .ok gs => gs
  | .error _ => []

/- ------------------------------------------------------------------ -/
/- Claim C6: `find_without_waf`                                       -/
/- ------------------------------------------------------------------ -/

/-- The complement comprehension
`[alb for alb in albs if alb['waf_association']['has_waf']]`. -/
def filterWithWaf : List LoadBalancerRecord → Except KeyErr (List LoadBalancerRecord)
  | [] => .ok []
  | alb :: rest => do
      let b ← reqAlbHasWaf alb
      let rest' ← filterWithWaf rest
      pure (if b then alb :: rest' else rest')

/-- The unprotected records of a region list, concatenated in region
order (no region pruning). -/
def allUnwafRegions : List RegionScan → Except KeyErr (List LoadBalancerRecord)
  | [] => .ok []
  | r :: rest => do
      let u ← filterUnwaf (getLoadBalancers r)
      let rest' ← allUnwafRegions rest
      pure (u ++ rest')

/-- The unprotected records of the whole document, in traversal order. -/
def allUnwaf : ScanDocument → Except KeyErr (List LoadBalancerRecord)
  | [] => .ok []
  | a :: rest => do
      let u ← allUnwafRegions (getRegions a)
      let rest' ← allUnwaf rest
      pure (u ++ rest')

/-- The records contained in a `find_without_waf` result, flattened in
report order. -/
def flattenUnwafGroups (groups : List UnwafAccountGroup) : List LoadBalancerRecord :=
  (groups.map (fun g => (g.region_groups.map UnwafRegionGroup.albs).flatten)).flatten

def wunwafC6 : List UnwafAccountGroup :=
  match findWithoutWaf wdocC2 with
  | .ok gs => gs
  | .error _ => []

/- ------------------------------------------------------------------ -/
/- Claim C5: `export_csv`                                             -/
/- ------------------------------------------------------------------ -/

/-- The row built for one traversal context. -/
def ctxRow (c : String × String × String × LoadBalancerRecord) : CsvRow :=
  rowOf c.1 c.2.1 c.2.2.1 c.2.2.2

def wdocC5 : ScanDocument :=
  [mkAccount "444444444444" "quick" [mkRegion "us-west-2" [mkAlb false "solo-alb"]]]

def wrowsC5 : List CsvRow :=
  match exportCsv wdocC5 with
  | .ok rows => rows
  | .error _ => []

/- ------------------------------------------------------------------ -/
/- Claim C4: `analyze_advanced_stats`                                 -/
/- ------------------------------------------------------------------ -/

/-- Whether an `Except` computation succeeded. -/
def isOkE {α : Type} (e : Except KeyErr α) : Bool :=
  match e with
  | .ok _ => true
  | .error _ => false

def albListenersLen (alb : LoadBalancerRecord) : Nat :=
  (albListeners alb).length

def albTgLen (alb : LoadBalancerRecord) : Nat :=
  (albTargetGroups alb).length

def albRulesLen (alb : LoadBalancerRecord) : Nat :=
  ((albListeners alb).map (fun l => (listenerRules l).length)).sum

def albTargetsLen (alb : LoadBalancerRecord) : Nat :=
  ((albTargetGroups alb).map (fun tg => (tgTargetHealth tg).length)).sum

/-- Sum of a per-record quantity over one account. -/
def accSum (f : LoadBalancerRecord → Nat) (a : AccountScan) : Nat :=
  ((getRegions a).map (fun r => ((getLoadBalancers r).map f).sum)).sum

/-- Listeners counted by `analyze_advanced_stats`: only from accounts in
standard or full mode. -/
def listenersTotal (doc : ScanDocument) : Nat :=
  (doc.map (fun a => if isStdOrFull (accountMode a) then accSum albListenersLen a else 0)).sum

/-- Target groups counted: only from standard-or-full accounts. -/
def targetGroupsTotal (doc : ScanDocument) : Nat :=
  (doc.map (fun a => if isStdOrFull (accountMode a) then accSum albTgLen a else 0)).sum

/-- Listener rules counted: only from full-mode accounts. -/
def rulesTotal (doc : ScanDocument) : Nat :=
  (doc.map (fun a => if accountMode a = "full" then accSum albRulesLen a else 0)).sum

/-- Health targets counted: only from full-mode accounts. -/
def targetsTotal (doc : ScanDocument) : Nat :=
  (doc.map (fun a => if accountMode a = "full" then accSum albTargetsLen a else 0)).sum

/-- Total count recorded in the health-state dict. -/
def healthSum (st : AdvAcc) : Nat :=
  (st.health_states.map Prod.snd).sum

/-- The five aggregate quantities of the advanced-statistics loop that
the claims constrain. -/
def measures (st : AdvAcc) : Nat × Nat × Nat × Nat × Nat :=
  (st.total_listeners, st.total_target_groups, st.total_rules, st.total_targets, healthSum st)

def cdocC4 : ScanDocument :=
  [⟨none, some "profile-a", some "2024-01-01", some "full",
     some [⟨some "us-east-1", some [mkAlb true "full-alb"]⟩]⟩,
   ⟨none, some "profile-b", some "2024-01-02", some "quick", some []⟩]

def albFullC4 : LoadBalancerRecord :=
  ⟨some ⟨some "full-alb", some "application", some "ALB", some ⟨some "active"⟩,
     some "d.example", some "internal", some "vpc-7"⟩,
   some ⟨some true, some ⟨some "acl", some "acl-i", some "acl-r"⟩⟩,
   some [⟨some "HTTPS", some [RuleObj.mk, RuleObj.mk]⟩, ⟨some "HTTP", some [RuleObj.mk]⟩],
   some [⟨some "HTTP", some [⟨some ⟨some "healthy"⟩⟩, ⟨some ⟨some "unhealthy"⟩⟩]⟩]⟩

def wdocC4 : ScanDocument :=
  [mkAccount "777777777777" "full" [mkRegion "us-east-1" [albFullC4]],
   mkAccount "888888888888" "quick" [mkRegion "eu-west-1" [mkAlb false "quick-alb"]]]

def cdocC1 : ScanDocument :=
  [mkAccount "555555555555" "quick" [mkRegion "us-east-1" [⟨none, none, none, none⟩]]]

/- ------------------------------------------------------------------ -/
/- Claim C10: the `region` key                                        -/
/- ------------------------------------------------------------------ -/

/-- A region object with its `region` key deleted. -/
def eraseRegion (r : RegionScan) : RegionScan :=
  ⟨none, r.load_balancers⟩

/-- An account with all `region` keys deleted. -/
def eraseAccount (a : AccountScan) : AccountScan :=
  ⟨a.account_info, a.profile, a.scan_time, a.scan_mode,
   some ((getRegions a).map eraseRegion)⟩

/-- The document with every `region` key deleted. -/
def eraseRegionKeys (doc : ScanDocument) : ScanDocument :=
  doc.map eraseAccount

def cdocC10 : ScanDocument :=
  [mkAccount "666666666666" "quick" [⟨none, some [mkAlb true "alb-one"]⟩]]

/- ------------------------------------------------------------------ -/
/- Lemmas about `analyze_waf_coverage`                                -/
/- ------------------------------------------------------------------ -/

@[simp] theorem exc_ok_bind {α β : Type} (a : α) (f : α → Except KeyErr β) :
    (Except.ok a >>= f) = f a := rfl

@[simp] theorem exc_error_bind {α β : Type} (e : KeyErr) (f : α → Except KeyErr β) :
    ((Except.error e : Except KeyErr α) >>= f) = .error e := rfl

@[simp] theorem exc_map_ok {α β : Type} (f : α → β) (a : α) :
    (f <$> (Except.ok a : Except KeyErr α)) = .ok (f a) := rfl

@[simp] theorem exc_map_error {α β : Type} (f : α → β) (e : KeyErr) :
    (f <$> (Except.error e : Except KeyErr α)) = .error e := rfl

@[simp] theorem exc_pure {α : Type} (a : α) :
    (pure a : Except KeyErr α) = .ok a := rfl

theorem countWithWaf_le {albs : List LoadBalancerRecord} {w : Nat}
    (h : countWithWaf albs = .ok w) : w ≤ albs.length := by
  induction albs generalizing w with
  | nil => simp [countWithWaf] at h; omega
  | cons alb rest ih =>
    cases hb : reqAlbHasWaf alb with
    | error e => simp [countWithWaf, hb] at h
    | ok b =>
      cases hr : countWithWaf rest with
      | error e => simp [countWithWaf, hb, hr] at h
      | ok n =>
        simp [countWithWaf, hb, hr] at h
        have := ih hr
        cases b <;> simp at h <;> simp only [List.length_cons] <;> omega

theorem accountCounts_le {rs : List RegionScan} {t w : Nat}
    (h : accountCounts rs = .ok (t, w)) : w ≤ t := by
  induction rs generalizing t w with
  | nil =>
    simp only [accountCounts, Except.ok.injEq, Prod.mk.injEq] at h
    omega
  | cons r rest ih =>
    cases hc : countWithWaf (getLoadBalancers r) with
    | error e => simp [accountCounts, hc] at h
    | ok w0 =>
      cases hr : accountCounts rest with
      | error e => simp [accountCounts, hc, hr] at h
      | ok tw =>
        obtain ⟨t', w'⟩ := tw
        simp only [accountCounts, hc, hr, exc_ok_bind, exc_map_ok, exc_pure,
          Except.ok.injEq, Prod.mk.injEq] at h
        obtain ⟨ht, hw⟩ := h
        have h1 := countWithWaf_le hc
        have h2 := ih hr
        omega

/-- Full characterization of the per-account stats and running global
totals produced by the `analyze_waf_coverage` loop. -/
theorem wafCoverageAux_spec {accs : List AccountScan}
    {stats : List AccountStat} {gt gw gwo : Nat}
    (h : wafCoverageAux accs = .ok (stats, gt, gw, gwo)) :
    (∀ s ∈ stats, s.with_waf ≤ s.total ∧ s.without_waf = s.total - s.with_waf ∧
      s.coverage = (if s.total > 0 then (s.with_waf : ℚ) / (s.total : ℚ) * 100 else 0)) ∧
    gt = (stats.map AccountStat.total).sum ∧
    gw = (stats.map AccountStat.with_waf).sum ∧
    gwo = (stats.map AccountStat.without_waf).sum := by
  induction accs generalizing stats gt gw gwo with
  | nil =>
    simp only [wafCoverageAux, Except.ok.injEq, Prod.mk.injEq] at h
    obtain ⟨h1, h2, h3, h4⟩ := h
    subst h1; subst h2; subst h3; subst h4
    simp
  | cons a rest ih =>
    cases hc : accountCounts (getRegions a) with
    | error e => simp [wafCoverageAux, hc] at h
    | ok tw =>
      obtain ⟨t, w⟩ := tw
      cases hr : wafCoverageAux rest with
      | error e => simp [wafCoverageAux, hc, hr] at h
      | ok res =>
        obtain ⟨stats', gt', gw', gwo'⟩ := res
        simp only [wafCoverageAux, hc, hr, exc_ok_bind, exc_pure, Except.ok.injEq,
          Prod.mk.injEq] at h
        obtain ⟨h1, h2, h3, h4⟩ := h
        subst h1; subst h2; subst h3; subst h4
        obtain ⟨ihm, ih1, ih2, ih3⟩ := ih hr
        refine ⟨?_, by simp [ih1], by simp [ih2], by simp [ih3]⟩
        intro s hs
        rcases List.mem_cons.mp hs with h | h
        · subst h
          exact ⟨accountCounts_le hc, rfl, rfl⟩
        · exact ihm s h

theorem sum_with_add_without {stats : List AccountStat}
    (h : ∀ s ∈ stats, s.with_waf + s.without_waf = s.total) :
    (stats.map AccountStat.with_waf).sum + (stats.map AccountStat.without_waf).sum
      = (stats.map AccountStat.total).sum := by
  induction stats with
  | nil => simp
  | cons s rest ih =>
    have h1 := h s (by simp)
    have h2 := ih (fun x hx => h x (by simp [hx]))
    simp only [List.map_cons, List.sum_cons]
    omega

theorem coverage_bounds {w t : Nat} (hle : w ≤ t) :
    0 ≤ (if t > 0 then (w : ℚ) / (t : ℚ) * 100 else 0) ∧
    (if t > 0 then (w : ℚ) / (t : ℚ) * 100 else 0) ≤ 100 := by
  split
  · rename_i hpos
    have ht : (0 : ℚ) < t := by exact_mod_cast hpos
    have hw0 : (0 : ℚ) ≤ w := by positivity
    have hw : (w : ℚ) ≤ t := by exact_mod_cast hle
    constructor
    · positivity
    · have h1 : (w : ℚ) / t ≤ 1 := div_le_one_of_le₀ hw (le_of_lt ht)
      calc (w : ℚ) / t * 100 ≤ 1 * 100 := by nlinarith
        _ = 100 := by norm_num
  · norm_num

/-- Claim C2: whenever `analyze_waf_coverage` succeeds on a document, each
account's `with_waf + without_waf` equals its `total_albs`, likewise for
the global aggregate, and the global `total_albs`, `with_waf` and
`without_waf` are the sums of the per-account values. -/
theorem claim_C2 (doc : ScanDocument) (stats : List AccountStat) (g : GlobalStat)
    (h : analyzeWafCoverage doc = .ok (stats, g)) :
    (∀ s ∈ stats, s.with_waf + s.without_waf = s.total) ∧
    g.with_waf + g.without_waf = g.total ∧
    g.total = (stats.map AccountStat.total).sum ∧
    g.with_waf = (stats.map AccountStat.with_waf).sum ∧
    g.without_waf = (stats.map AccountStat.without_waf).sum := by
  cases haux : wafCoverageAux doc with
  | error e => simp [analyzeWafCoverage, haux] at h
  | ok res =>
    obtain ⟨stats', gt, gw, gwo⟩ := res
    simp only [analyzeWafCoverage, haux, exc_ok_bind, exc_pure, Except.ok.injEq,
      Prod.mk.injEq] at h
    obtain ⟨h1, h2⟩ := h
    subst h1; subst h2
    obtain ⟨hm, ht, hw, hwo⟩ := wafCoverageAux_spec haux
    have hpt : ∀ s ∈ stats', s.with_waf + s.without_waf = s.total := by
      intro s hs
      obtain ⟨hle, heq, -⟩ := hm s hs
      omega
    refine ⟨hpt, ?_, ht, hw, hwo⟩
    have := sum_with_add_without hpt
    simp only [ht, hw, hwo]
    omega

/-- Witness for C2 at a concrete two-account document. -/
theorem claim_C2_witness :
    analyzeWafCoverage wdocC2 = .ok (wcovPairC2.1, wcovPairC2.2) ∧
    ((∀ s ∈ wcovPairC2.1, s.with_waf + s.without_waf = s.total) ∧
     wcovPairC2.2.with_waf + wcovPairC2.2.without_waf = wcovPairC2.2.total ∧
     wcovPairC2.2.total = (wcovPairC2.1.map AccountStat.total).sum ∧
     wcovPairC2.2.with_waf = (wcovPairC2.1.map AccountStat.with_waf).sum ∧
     wcovPairC2.2.without_waf = (wcovPairC2.1.map AccountStat.without_waf).sum) :=
  ⟨rfl, claim_C2 wdocC2 wcovPairC2.1 wcovPairC2.2 rfl⟩

/-- Claim C3: whenever `analyze_waf_coverage` succeeds, every coverage
percentage (per account and global) equals `with_waf / total * 100` with
the zero-denominator case defined as 0, and lies in `[0, 100]`. -/
theorem claim_C3 (doc : ScanDocument) (stats : List AccountStat) (g : GlobalStat)
    (h : analyzeWafCoverage doc = .ok (stats, g)) :
    (∀ s ∈ stats,
      s.coverage = (if s.total > 0 then (s.with_waf : ℚ) / (s.total : ℚ) * 100 else 0) ∧
      (s.total = 0 → s.coverage = 0) ∧ 0 ≤ s.coverage ∧ s.coverage ≤ 100) ∧
    g.coverage = (if g.total > 0 then (g.with_waf : ℚ) / (g.total : ℚ) * 100 else 0) ∧
    (g.total = 0 → g.coverage = 0) ∧ 0 ≤ g.coverage ∧ g.coverage ≤ 100 := by
  cases haux : wafCoverageAux doc with
  | error e => simp [analyzeWafCoverage, haux] at h
  | ok res =>
    obtain ⟨stats', gt, gw, gwo⟩ := res
    simp only [analyzeWafCoverage, haux, exc_ok_bind, exc_pure, Except.ok.injEq,
      Prod.mk.injEq] at h
    obtain ⟨h1, h2⟩ := h
    subst h1; subst h2
    obtain ⟨hm, ht, hw, hwo⟩ := wafCoverageAux_spec haux
    constructor
    · intro s hs
      obtain ⟨hle, -, hcov⟩ := hm s hs
      obtain ⟨hb0, hb100⟩ := coverage_bounds hle
      refine ⟨hcov, ?_, by rw [hcov]; exact hb0, by rw [hcov]; exact hb100⟩
      intro h0
      rw [hcov, h0]
      norm_num
    · have hpt : ∀ s ∈ stats', s.with_waf + s.without_waf = s.total := by
        intro s hs
        obtain ⟨hle, heq, -⟩ := hm s hs
        omega
      have hsum := sum_with_add_without hpt
      have hgle : gw ≤ gt := by
        simp only [ht, hw, hwo]
        omega
      obtain ⟨hb0, hb100⟩ := coverage_bounds hgle
      refine ⟨rfl, ?_, hb0, hb100⟩
      intro h0
      have hgt : gt = 0 := h0
      simp [hgt]

/-- Witness for C3 at a concrete document including a zero-ALB account. -/
theorem claim_C3_witness :
    analyzeWafCoverage wdocC2 = .ok (wcovPairC2.1, wcovPairC2.2) ∧
    ((∀ s ∈ wcovPairC2.1,
      s.coverage = (if s.total > 0 then (s.with_waf : ℚ) / (s.total : ℚ) * 100 else 0) ∧
      (s.total = 0 → s.coverage = 0) ∧ 0 ≤ s.coverage ∧ s.coverage ≤ 100) ∧
     wcovPairC2.2.coverage =
       (if wcovPairC2.2.total > 0 then
         (wcovPairC2.2.with_waf : ℚ) / (wcovPairC2.2.total : ℚ) * 100 else 0) ∧
     (wcovPairC2.2.total = 0 → wcovPairC2.2.coverage = 0) ∧
     0 ≤ wcovPairC2.2.coverage ∧ wcovPairC2.2.coverage ≤ 100) :=
  ⟨rfl, claim_C3 wdocC2 wcovPairC2.1 wcovPairC2.2 rfl⟩

/- ------------------------------------------------------------------ -/
/- Claims C8 and C9: `search`                                         -/
/- ------------------------------------------------------------------ -/

theorem strContains_nil (l : List Char) : strContains [] l = true := by
  induction l with
  | nil => rfl
  | cons c rest ih => simp [strContains, chPre]

theorem nameMatches_empty (alb : LoadBalancerRecord) : nameMatches "" alb = true :=
  strContains_nil (lowerL (lbName alb))

theorem searchRegions_empty {acc : AccountScan} {rs : List RegionScan}
    {gs : List SearchGroup} (h : searchRegions "" acc rs = .ok gs) :
    (gs.map SearchGroup.albs).flatten = rs.flatMap getLoadBalancers := by
  induction rs generalizing gs with
  | nil =>
    simp only [searchRegions, Except.ok.injEq] at h
    subst h
    simp
  | cons r rest ih =>
    cases hreg : reqRegion r with
    | error e => simp [searchRegions, hreg] at h
    | ok reg =>
      cases hrec : searchRegions "" acc rest with
      | error e => simp [searchRegions, hreg, hrec] at h
      | ok rest' =>
        have hf : (getLoadBalancers r).filter (nameMatches "") = getLoadBalancers r :=
          List.filter_eq_self.mpr (fun a _ => nameMatches_empty a)
        simp only [searchRegions, hreg, hrec, exc_ok_bind, exc_pure, hf,
          Except.ok.injEq] at h
        subst h
        by_cases he : (getLoadBalancers r).isEmpty
        · have : getLoadBalancers r = [] := List.isEmpty_iff.mp he
          simp [he, ih hrec, this]
        · simp [he, ih hrec]

theorem search_empty_flatten {doc : ScanDocument} {gs : List SearchGroup}
    (h : search doc "" = .ok gs) :
    (gs.map SearchGroup.albs).flatten = allRecords doc := by
  induction doc generalizing gs with
  | nil =>
    simp only [search, Except.ok.injEq] at h
    subst h
    simp [allRecords]
  | cons a rest ih =>
    cases hsr : searchRegions "" a (getRegions a) with
    | error e => simp [search, hsr] at h
    | ok gs1 =>
      cases hrec : search rest "" with
      | error e => simp [search, hsr, hrec] at h
      | ok gs2 =>
        simp only [search, hsr, hrec, exc_ok_bind, exc_pure, Except.ok.injEq] at h
        subst h
        simp only [List.map_append, List.flatten_append,
          searchRegions_empty hsr, ih hrec, allRecords, List.flatMap_cons]

/-- Claim C8: whenever `search` with the empty pattern succeeds, the
records of its groups, flattened, are exactly all load-balancer records
of the document in original document order (records with no name
included, since the default name "" also matches). -/
theorem claim_C8 (doc : ScanDocument) (gs : List SearchGroup)
    (h : search doc "" = .ok gs) :
    (gs.map SearchGroup.albs).flatten = allRecords doc :=
  search_empty_flatten h

/-- Witness for C8 on a document containing a record without a name. -/
theorem claim_C8_witness :
    search wdocC8 "" = .ok wsearchC8 ∧
    (wsearchC8.map SearchGroup.albs).flatten = allRecords wdocC8 :=
  ⟨rfl, claim_C8 wdocC8 wsearchC8 rfl⟩

theorem searchRegions_congr {p q : String} (hm : nameMatches p = nameMatches q)
    (acc : AccountScan) (rs : List RegionScan) :
    searchRegions p acc rs = searchRegions q acc rs := by
  induction rs with
  | nil => rfl
  | cons r rest ih => simp only [searchRegions, hm, ih]

/-- Claim C9: `search` is case-insensitive — two patterns with the same
lowercasing produce identical results on every document (the match is a
substring test on the lowercased name). -/
theorem claim_C9 (doc : ScanDocument) (p q : String)
    (h : lowerL p = lowerL q) :
    search doc p = search doc q := by
  have hm : nameMatches p = nameMatches q := by
    funext alb
    simp [nameMatches, h]
  induction doc with
  | nil => rfl
  | cons a rest ih => simp only [search, searchRegions_congr hm, ih]

/-- Witness for C9: searching "PROD" and "prod" agree on a concrete
document whose names include "prod-web". -/
theorem claim_C9_witness :
    lowerL "PROD" = lowerL "prod" ∧
    search wdocC2 "PROD" = search wdocC2 "prod" :=
  ⟨by decide, claim_C9 wdocC2 "PROD" "prod" (by decide)⟩

/- ------------------------------------------------------------------ -/
/- Claim C7: `analyze_by_type`                                        -/
/- ------------------------------------------------------------------ -/

theorem bump_snd_sum (m : List (String × Nat)) (k : String) :
    ((bump m k).map Prod.snd).sum = (m.map Prod.snd).sum + 1 := by
  induction m with
  | nil => simp [bump]
  | cons e rest ih =>
    obtain ⟨k', n⟩ := e
    by_cases h : k' = k
    · simp [bump, h]
      omega
    · simp [bump, h, ih]
      omega

theorem foldl_bump_albs_sum (albs : List LoadBalancerRecord) (m : List (String × Nat)) :
    (((albs.foldl (fun m alb => bump m (friendlyTypeOf alb)) m)).map Prod.snd).sum
      = (m.map Prod.snd).sum + albs.length := by
  induction albs generalizing m with
  | nil => simp
  | cons alb rest ih =>
    simp only [List.foldl_cons, ih, bump_snd_sum, List.length_cons]
    omega

theorem foldl_bump_regions_sum (rs : List RegionScan) (m : List (String × Nat)) :
    (((rs.foldl (fun m r =>
        (getLoadBalancers r).foldl (fun m alb => bump m (friendlyTypeOf alb)) m) m)).map
      Prod.snd).sum
      = (m.map Prod.snd).sum + (rs.flatMap getLoadBalancers).length := by
  induction rs generalizing m with
  | nil => simp
  | cons r rest ih =>
    simp only [List.foldl_cons, ih, foldl_bump_albs_sum, List.flatMap_cons,
      List.length_append]
    omega

theorem typeStats_sum (doc : ScanDocument) :
    ((typeStats doc).map Prod.snd).sum = (allRecords doc).length := by
  suffices h : ∀ m : List (String × Nat),
      (((doc.foldl (fun m a =>
          (getRegions a).foldl (fun m r =>
            (getLoadBalancers r).foldl (fun m alb => bump m (friendlyTypeOf alb)) m) m) m)).map
        Prod.snd).sum = (m.map Prod.snd).sum + (allRecords doc).length by
    have := h []
    simpa [typeStats] using this
  induction doc with
  | nil => simp [allRecords]
  | cons a rest ih =>
    intro m
    simp only [List.foldl_cons, ih, foldl_bump_regions_sum, allRecords,
      List.flatMap_cons, List.length_append]
    simp [allRecords]
    omega

theorem byCountDesc_trans (a b c : String × Nat)
    (h1 : byCountDesc a b) (h2 : byCountDesc b c) : byCountDesc a c := by
  simp only [byCountDesc, decide_eq_true_eq] at *
  omega

theorem byCountDesc_total (a b : String × Nat) :
    byCountDesc a b || byCountDesc b a := by
  simp only [byCountDesc, Bool.or_eq_true, decide_eq_true_eq]
  omega

/-- Claim C7: the counts reported by `analyze_by_type` sum to the total
number of load-balancer records; the result is sorted descending by
count; and ties keep first-encountered order — for every count value,
the entries carrying it appear exactly as in the insertion-ordered
`type_stats` dict (stable sort on count only, hence deterministic). -/
theorem claim_C7 (doc : ScanDocument) :
    ((analyzeByType doc).map Prod.snd).sum = (allRecords doc).length ∧
    (analyzeByType doc).Pairwise (fun a b => b.2 ≤ a.2) ∧
    ∀ c : Nat, (analyzeByType doc).filter (fun p => p.2 == c)
      = (typeStats doc).filter (fun p => p.2 == c) := by
  refine ⟨?_, ?_, ?_⟩
  · have hp : List.Perm (analyzeByType doc) (typeStats doc) :=
      List.mergeSort_perm (typeStats doc) byCountDesc
    have := (hp.map Prod.snd).sum_eq
    rw [this, typeStats_sum]
  · have hs := List.sorted_mergeSort byCountDesc_trans byCountDesc_total (typeStats doc)
    exact hs.imp (fun {a b} hab => by
      simpa [byCountDesc, decide_eq_true_eq] using hab)
  · intro c
    set l := typeStats doc with hl
    set pred : String × Nat → Bool := fun p => p.2 == c with hpred
    have hmemS : ∀ p ∈ l.filter pred, p.2 = c := by
      intro p hp
      have := List.of_mem_filter hp
      simpa [hpred] using this
    have hSpair : (l.filter pred).Pairwise (fun a b => byCountDesc a b) := by
      apply List.pairwise_of_forall_mem_list
      intro a ha b hb
      have h1 := hmemS a ha
      have h2 := hmemS b hb
      simp [byCountDesc, h1, h2]
    have hSsub : List.Sublist (l.filter pred) l := List.filter_sublist l
    have h1 : List.Sublist (l.filter pred) (l.mergeSort byCountDesc) :=
      List.sublist_mergeSort byCountDesc_trans byCountDesc_total hSpair hSsub
    have hfs : (l.filter pred).filter pred = l.filter pred :=
      List.filter_eq_self.mpr (fun a ha => by
        have := hmemS a ha
        simp [hpred, this])
    have h2 : List.Sublist (l.filter pred) ((l.mergeSort byCountDesc).filter pred) := by
      have := h1.filter pred
      rwa [hfs] at this
    have hlen : ((l.mergeSort byCountDesc).filter pred).length = (l.filter pred).length :=
      ((List.mergeSort_perm l byCountDesc).filter pred).length_eq
    exact (h2.eq_of_length hlen.symm).symm

theorem reqAlbHasWaf_eq_ok {alb : LoadBalancerRecord} {b : Bool} :
    reqAlbHasWaf alb = .ok b ↔
    ∃ w, alb.waf_association = some w ∧ w.has_waf = some b := by
  cases halb : alb.waf_association with
  | none => simp [reqAlbHasWaf, reqWaf, halb]
  | some w =>
    cases hw : w.has_waf with
    | none => simp [reqAlbHasWaf, reqWaf, reqHasWaf, halb, hw]
    | some b' =>
      simp only [reqAlbHasWaf, reqWaf, reqHasWaf, halb, hw, exc_ok_bind,
        Except.ok.injEq, Option.some.injEq]
      constructor
      · intro h
        exact ⟨w, rfl, by rw [hw, h]⟩
      · rintro ⟨w', hw', hb⟩
        cases hw'
        rw [hw] at hb
        exact (Option.some.injEq _ _ ▸ hb)

theorem filterUnwaf_mem {albs u : List LoadBalancerRecord}
    (h : filterUnwaf albs = .ok u) :
    ∀ alb ∈ u, ∃ w, alb.waf_association = some w ∧ w.has_waf = some false := by
  induction albs generalizing u with
  | nil =>
    simp only [filterUnwaf, Except.ok.injEq] at h
    subst h
    simp
  | cons alb rest ih =>
    cases hb : reqAlbHasWaf alb with
    | error e => simp [filterUnwaf, hb] at h
    | ok b =>
      cases hr : filterUnwaf rest with
      | error e => simp [filterUnwaf, hb, hr] at h
      | ok u' =>
        simp only [filterUnwaf, hb, hr, exc_ok_bind, exc_pure, Except.ok.injEq] at h
        subst h
        cases b with
        | true => simpa using ih hr
        | false =>
          intro x hx
          rcases List.mem_cons.mp hx with hx | hx
          · subst hx
            exact reqAlbHasWaf_eq_ok.mp hb
          · exact ih hr x hx

theorem filterUnwaf_withWaf_perm {albs u : List LoadBalancerRecord}
    (h : filterUnwaf albs = .ok u) :
    ∃ c, filterWithWaf albs = .ok c ∧ List.Perm (u ++ c) albs := by
  induction albs generalizing u with
  | nil =>
    simp only [filterUnwaf, Except.ok.injEq] at h
    subst h
    exact ⟨[], rfl, by simp⟩
  | cons alb rest ih =>
    cases hb : reqAlbHasWaf alb with
    | error e => simp [filterUnwaf, hb] at h
    | ok b =>
      cases hr : filterUnwaf rest with
      | error e => simp [filterUnwaf, hb, hr] at h
      | ok u' =>
        simp only [filterUnwaf, hb, hr, exc_ok_bind, exc_pure, Except.ok.injEq] at h
        subst h
        obtain ⟨c', hc', hperm⟩ := ih hr
        cases b with
        | true =>
          refine ⟨alb :: c', by simp [filterWithWaf, hb, hc'], ?_⟩
          show List.Perm (u' ++ alb :: c') (alb :: rest)
          exact List.perm_middle.trans (hperm.cons alb)
        | false =>
          refine ⟨c', by simp [filterWithWaf, hb, hc'], ?_⟩
          show List.Perm ((alb :: u') ++ c') (alb :: rest)
          exact hperm.cons alb

theorem unwafRegions_spec {acc : AccountScan} {rs : List RegionScan}
    {gs : List UnwafRegionGroup} (h : unwafRegions acc rs = .ok gs) :
    (∀ g ∈ gs, g.albs ≠ []) ∧
    allUnwafRegions rs = .ok ((gs.map UnwafRegionGroup.albs).flatten) ∧
    (∀ r ∈ rs, ∃ u, filterUnwaf (getLoadBalancers r) = .ok u) ∧
    (∀ g ∈ gs, ∀ alb ∈ g.albs,
      ∃ w, alb.waf_association = some w ∧ w.has_waf = some false) := by
  induction rs generalizing gs with
  | nil =>
    simp only [unwafRegions, Except.ok.injEq] at h
    subst h
    exact ⟨by simp, by simp [allUnwafRegions], by simp, by simp⟩
  | cons r rest ih =>
    cases hreg : reqRegion r with
    | error e => simp [unwafRegions, hreg] at h
    | ok reg =>
      cases hu : filterUnwaf (getLoadBalancers r) with
      | error e => simp [unwafRegions, hreg, hu] at h
      | ok u =>
        cases hrec : unwafRegions acc rest with
        | error e => simp [unwafRegions, hreg, hu, hrec] at h
        | ok gs' =>
          simp only [unwafRegions, hreg, hu, hrec, exc_ok_bind, exc_pure,
            Except.ok.injEq] at h
          subst h
          obtain ⟨ihne, ihflat, ihall, ihsnd⟩ := ih hrec
          have hmemu := filterUnwaf_mem hu
          by_cases he : u.isEmpty
          · have hu0 : u = [] := List.isEmpty_iff.mp he
            refine ⟨by simpa [he] using ihne, ?_, ?_, by simpa [he] using ihsnd⟩
            · simp [allUnwafRegions, hu, ihflat, he, hu0]
            · intro r' hr'
              rcases List.mem_cons.mp hr' with hr' | hr'
              · exact ⟨u, by rw [hr']; exact hu⟩
              · exact ihall r' hr'
          · refine ⟨?_, ?_, ?_, ?_⟩
            · intro g hg
              simp only [if_neg he] at hg
              rcases List.mem_cons.mp hg with hg | hg
              · subst hg
                simpa using (by simpa using he : ¬u = [])
              · exact ihne g hg
            · simp [allUnwafRegions, hu, ihflat, he]
            · intro r' hr'
              rcases List.mem_cons.mp hr' with hr' | hr'
              · exact ⟨u, by rw [hr']; exact hu⟩
              · exact ihall r' hr'
            · intro g hg
              simp only [if_neg he] at hg
              rcases List.mem_cons.mp hg with hg | hg
              · subst hg
                exact hmemu
              · exact ihsnd g hg

theorem findWithoutWaf_spec {doc : ScanDocument} {groups : List UnwafAccountGroup}
    (h : findWithoutWaf doc = .ok groups) :
    (∀ g ∈ groups, g.region_groups ≠ [] ∧ ∀ rg ∈ g.region_groups, rg.albs ≠ []) ∧
    allUnwaf doc = .ok (flattenUnwafGroups groups) ∧
    (∀ a ∈ doc, ∀ r ∈ getRegions a, ∃ u, filterUnwaf (getLoadBalancers r) = .ok u) ∧
    (∀ g ∈ groups, ∀ rg ∈ g.region_groups, ∀ alb ∈ rg.albs,
      ∃ w, alb.waf_association = some w ∧ w.has_waf = some false) := by
  induction doc generalizing groups with
  | nil =>
    simp only [findWithoutWaf, Except.ok.injEq] at h
    subst h
    exact ⟨by simp, by simp [allUnwaf, flattenUnwafGroups], by simp, by simp⟩
  | cons a rest ih =>
    cases hg : unwafRegions a (getRegions a) with
    | error e => simp [findWithoutWaf, hg] at h
    | ok gs =>
      cases hrec : findWithoutWaf rest with
      | error e => simp [findWithoutWaf, hg, hrec] at h
      | ok groups' =>
        simp only [findWithoutWaf, hg, hrec, exc_ok_bind, exc_pure,
          Except.ok.injEq] at h
        subst h
        obtain ⟨hne, hflat, hall, hsnd⟩ := unwafRegions_spec hg
        obtain ⟨ihg, ihflat, ihall, ihsnd⟩ := ih hrec
        have hmem : ∀ a' ∈ a :: rest, ∀ r ∈ getRegions a',
            ∃ u, filterUnwaf (getLoadBalancers r) = .ok u := by
          intro a' ha' r hr
          rcases List.mem_cons.mp ha' with ha' | ha'
          · subst ha'
            exact hall r hr
          · exact ihall a' ha' r hr
        by_cases he : gs.isEmpty
        · have hg0 : gs = [] := List.isEmpty_iff.mp he
          refine ⟨by simpa [he] using ihg, ?_, hmem, by simpa [he] using ihsnd⟩
          simp [allUnwaf, hflat, ihflat, he, hg0, flattenUnwafGroups]
        · refine ⟨?_, ?_, hmem, ?_⟩
          · intro g hgm
            simp only [if_neg he] at hgm
            rcases List.mem_cons.mp hgm with hgm | hgm
            · subst hgm
              exact ⟨by simpa using he, hne⟩
            · exact ihg g hgm
          · simp [allUnwaf, hflat, ihflat, he, flattenUnwafGroups]
          · intro g hgm
            simp only [if_neg he] at hgm
            rcases List.mem_cons.mp hgm with hgm | hgm
            · subst hgm
              exact hsnd
            · exact ihsnd g hgm

/-- Claim C6: whenever `find_without_waf` succeeds, its groups contain
only records with `has_waf = false`, no account or region group is
empty, the flattened result is exactly the traversal-ordered list of all
unprotected records, and per region the unprotected records plus the
`has_waf = true` complement are a duplicate-free reconstruction (a
permutation) of the region's full record list. -/
theorem claim_C6 (doc : ScanDocument) (groups : List UnwafAccountGroup)
    (h : findWithoutWaf doc = .ok groups) :
    (∀ g ∈ groups, g.region_groups ≠ []) ∧
    (∀ g ∈ groups, ∀ rg ∈ g.region_groups, rg.albs ≠ []) ∧
    (∀ g ∈ groups, ∀ rg ∈ g.region_groups, ∀ alb ∈ rg.albs,
      ∃ w, alb.waf_association = some w ∧ w.has_waf = some false) ∧
    allUnwaf doc = .ok (flattenUnwafGroups groups) ∧
    (∀ a ∈ doc, ∀ r ∈ getRegions a, ∃ u c,
      filterUnwaf (getLoadBalancers r) = .ok u ∧
      filterWithWaf (getLoadBalancers r) = .ok c ∧
      List.Perm (u ++ c) (getLoadBalancers r)) := by
  obtain ⟨hgrp, hflat, hall, hsnd⟩ := findWithoutWaf_spec h
  refine ⟨fun g hg => (hgrp g hg).1, fun g hg => (hgrp g hg).2, hsnd, hflat, ?_⟩
  intro a ha r hr
  obtain ⟨u, hu⟩ := hall a ha r hr
  obtain ⟨c, hc, hperm⟩ := filterUnwaf_withWaf_perm hu
  exact ⟨u, c, hu, hc, hperm⟩

/-- Witness for C6 on a concrete document with one unprotected record. -/
theorem claim_C6_witness :
    findWithoutWaf wdocC2 = .ok wunwafC6 ∧
    ((∀ g ∈ wunwafC6, g.region_groups ≠ []) ∧
     (∀ g ∈ wunwafC6, ∀ rg ∈ g.region_groups, rg.albs ≠ []) ∧
     (∀ g ∈ wunwafC6, ∀ rg ∈ g.region_groups, ∀ alb ∈ rg.albs,
       ∃ w, alb.waf_association = some w ∧ w.has_waf = some false) ∧
     allUnwaf wdocC2 = .ok (flattenUnwafGroups wunwafC6) ∧
     (∀ a ∈ wdocC2, ∀ r ∈ getRegions a, ∃ u c,
       filterUnwaf (getLoadBalancers r) = .ok u ∧
       filterWithWaf (getLoadBalancers r) = .ok c ∧
       List.Perm (u ++ c) (getLoadBalancers r))) :=
  ⟨rfl, claim_C6 wdocC2 wunwafC6 rfl⟩

theorem rowCells_length (row : CsvRow) :
    (rowCells row).length = csvFieldnames.length := rfl

theorem ctxRegions_proj {aid prof : String} {rs : List RegionScan}
    {cs : List (String × String × String × LoadBalancerRecord)}
    (h : ctxRegions aid prof rs = .ok cs) :
    cs.map (fun c => c.2.2.2) = rs.flatMap getLoadBalancers := by
  induction rs generalizing cs with
  | nil =>
    simp only [ctxRegions, Except.ok.injEq] at h
    subst h
    simp
  | cons r rest ih =>
    cases hreg : reqRegion r with
    | error e => simp [ctxRegions, hreg] at h
    | ok reg =>
      cases hrec : ctxRegions aid prof rest with
      | error e => simp [ctxRegions, hreg, hrec] at h
      | ok rest' =>
        simp only [ctxRegions, hreg, hrec, exc_ok_bind, exc_pure, Except.ok.injEq] at h
        subst h
        simp only [List.map_append, List.map_map, ih hrec, List.flatMap_cons,
          List.append_cancel_right_eq]
        show List.map id (getLoadBalancers r) = getLoadBalancers r
        exact List.map_id _

theorem recordsWithCtx_proj {doc : ScanDocument}
    {cs : List (String × String × String × LoadBalancerRecord)}
    (h : recordsWithCtx doc = .ok cs) :
    cs.map (fun c => c.2.2.2) = allRecords doc := by
  induction doc generalizing cs with
  | nil =>
    simp only [recordsWithCtx, Except.ok.injEq] at h
    subst h
    simp [allRecords]
  | cons a rest ih =>
    cases hcr : ctxRegions (getAccountId a) (getProfile a) (getRegions a) with
    | error e => simp [recordsWithCtx, hcr] at h
    | ok cs1 =>
      cases hrec : recordsWithCtx rest with
      | error e => simp [recordsWithCtx, hcr, hrec] at h
      | ok cs2 =>
        simp only [recordsWithCtx, hcr, hrec, exc_ok_bind, exc_pure, Except.ok.injEq] at h
        subst h
        simp [List.map_append, ctxRegions_proj hcr, ih hrec, allRecords]

/-- Claim C5: whenever `export_csv` succeeds, it produces exactly one row
per load-balancer record in document traversal order, each row has the
fixed 15-column schema, `Has_WAF` is the literal "Yes" when the record's
`has_waf` is truthy and "No" otherwise, and the WAF name/id/arn cells
are empty strings whenever `has_waf` is falsy. -/
theorem claim_C5 (doc : ScanDocument) (rows : List CsvRow)
    (h : exportCsv doc = .ok rows) :
    (∀ row ∈ rows, (rowCells row).length = csvFieldnames.length) ∧
    ∃ ctxs, recordsWithCtx doc = .ok ctxs ∧
      ctxs.map (fun c => c.2.2.2) = allRecords doc ∧
      rows = ctxs.map ctxRow ∧
      rows.length = (allRecords doc).length ∧
      (∀ c ∈ ctxs,
        (ctxRow c).has_waf = (if hasWafD c.2.2.2 then "Yes" else "No") ∧
        (hasWafD c.2.2.2 = false →
          (ctxRow c).waf_name = "" ∧ (ctxRow c).waf_id = "" ∧
          (ctxRow c).waf_arn = "")) := by
  refine ⟨fun row _ => rowCells_length row, ?_⟩
  cases hcs : recordsWithCtx doc with
  | error e => simp [exportCsv, hcs] at h
  | ok ctxs =>
    simp only [exportCsv, hcs, exc_ok_bind, exc_pure, Except.ok.injEq] at h
    subst h
    have hproj := recordsWithCtx_proj hcs
    refine ⟨ctxs, rfl, hproj, rfl, ?_, ?_⟩
    · calc (ctxs.map ctxRow).length = ctxs.length := List.length_map _ _
        _ = (ctxs.map (fun c => c.2.2.2)).length := (List.length_map _ _).symm
        _ = (allRecords doc).length := by rw [hproj]
    · intro c _
      refine ⟨rfl, ?_⟩
      intro hfalse
      simp [ctxRow, rowOf, hfalse]

/-- Witness for C5 on a one-account, one-region, one-record document
whose record has `has_waf = false`. -/
theorem claim_C5_witness :
    exportCsv wdocC5 = .ok wrowsC5 ∧
    ((∀ row ∈ wrowsC5, (rowCells row).length = csvFieldnames.length) ∧
     ∃ ctxs, recordsWithCtx wdocC5 = .ok ctxs ∧
       ctxs.map (fun c => c.2.2.2) = allRecords wdocC5 ∧
       wrowsC5 = ctxs.map ctxRow ∧
       wrowsC5.length = (allRecords wdocC5).length ∧
       (∀ c ∈ ctxs,
         (ctxRow c).has_waf = (if hasWafD c.2.2.2 then "Yes" else "No") ∧
         (hasWafD c.2.2.2 = false →
           (ctxRow c).waf_name = "" ∧ (ctxRow c).waf_id = "" ∧
           (ctxRow c).waf_arn = ""))) :=
  ⟨rfl, claim_C5 wdocC5 wrowsC5 rfl⟩

theorem setMode_values {m : List (String × String)} {k v : String} {p : String × String}
    (hp : p ∈ setMode m k v) : p ∈ m ∨ p.2 = v := by
  induction m with
  | nil =>
    simp [setMode] at hp
    right
    simp [hp]
  | cons e rest ih =>
    obtain ⟨k', v'⟩ := e
    by_cases h : k' = k
    · simp only [setMode, if_pos h] at hp
      rcases List.mem_cons.mp hp with hp | hp
      · right
        simp [hp]
      · left
        exact List.mem_cons_of_mem _ hp
    · simp only [setMode, if_neg h] at hp
      rcases List.mem_cons.mp hp with hp | hp
      · left
        simp [hp]
      · rcases ih hp with h' | h'
        · left
          exact List.mem_cons_of_mem _ h'
        · right
          exact h'

theorem foldl_setMode_values (doc : List AccountScan) :
    ∀ (m : List (String × String)) (p : String × String),
      p ∈ doc.foldl (fun m a => setMode m (getAccountId a) (accountMode a)) m →
      p ∈ m ∨ ∃ a ∈ doc, p.2 = accountMode a := by
  induction doc with
  | nil =>
    intro m p hp
    left
    simpa using hp
  | cons a rest ih =>
    intro m p hp
    simp only [List.foldl_cons] at hp
    rcases ih _ p hp with h | h
    · rcases setMode_values h with h' | h'
      · left
        exact h'
      · right
        exact ⟨a, by simp, h'⟩
    · right
      obtain ⟨a', ha', he⟩ := h
      exact ⟨a', by simp [ha'], he⟩

theorem hasAdvancedData_exists {doc : ScanDocument}
    (h : hasAdvancedData doc = true) :
    ∃ a ∈ doc, isStdOrFull (accountMode a) = true := by
  simp only [hasAdvancedData, List.any_eq_true] at h
  obtain ⟨p, hp, hsf⟩ := h
  rcases foldl_setMode_values doc [] p hp with h' | h'
  · simp at h'
  · obtain ⟨a, ha, he⟩ := h'
    exact ⟨a, ha, by rw [← he]; exact hsf⟩

theorem foldl_measures {α : Type} (f : AdvAcc → Nat × Nat × Nat × Nat × Nat)
    (step : AdvAcc → α → AdvAcc) (g : α → Nat × Nat × Nat × Nat × Nat)
    (hstep : ∀ st x, f (step st x) = f st + g x) :
    ∀ (xs : List α) (st : AdvAcc), f (xs.foldl step st) = f st + (xs.map g).sum := by
  intro xs
  induction xs with
  | nil =>
    intro st
    simp
  | cons x rest ih =>
    intro st
    simp only [List.foldl_cons, List.map_cons, List.sum_cons, ih, hstep]
    rw [add_assoc]

theorem sum_map_zero {α : Type} (l : List α) :
    (l.map (fun _ => (0 : Nat))).sum = 0 := by
  induction l with
  | nil => rfl
  | cons x rest ih => simp [ih]

theorem sum_map_ite {α : Type} (c : Prop) [Decidable c] (f : α → Nat) (l : List α) :
    (l.map (fun x => if c then f x else 0)).sum = if c then (l.map f).sum else 0 := by
  by_cases hc : c
  · simp [hc]
  · simp [hc, sum_map_zero]

theorem sum_map5 {α : Type} (f1 f2 f3 f4 f5 : α → Nat) (l : List α) :
    (l.map (fun x => (f1 x, f2 x, f3 x, f4 x, f5 x))).sum
      = ((l.map f1).sum, (l.map f2).sum, (l.map f3).sum, (l.map f4).sum, (l.map f5).sum) := by
  induction l with
  | nil => rfl
  | cons x rest ih => simp [ih, Prod.ext_iff]

theorem sum_map_const_unit {α : Type} (l : List α) :
    (l.map (fun _ => ((0, 0, 0, 0, 1) : Nat × Nat × Nat × Nat × Nat))).sum
      = (0, 0, 0, 0, l.length) := by
  induction l with
  | nil => rfl
  | cons x rest ih =>
    simp [ih, Prod.ext_iff]
    omega

theorem advHealthStep_measures (st : AdvAcc) (t : TargetHealthEntry) :
    measures (advHealthStep st t) = measures st + (0, 0, 0, 0, 1) := by
  simp [advHealthStep, measures, healthSum, bump_snd_sum, Prod.ext_iff]

theorem measures_addTg (L : AdvAcc) (n : Nat) :
    measures { L with total_target_groups := L.total_target_groups + n }
      = measures L + (0, n, 0, 0, 0) := by
  simp [measures, healthSum, Prod.ext_iff]

theorem measures_addListeners (L : AdvAcc) (n : Nat) :
    measures { L with total_listeners := L.total_listeners + n }
      = measures L + (n, 0, 0, 0, 0) := by
  simp [measures, healthSum, Prod.ext_iff]

theorem advTgStep_measures (mode : String) (st : AdvAcc) (tg : TargetGroup) :
    measures (advTgStep mode st tg) = measures st +
      (0, 0, 0, (if mode = "full" then (tgTargetHealth tg).length else 0),
        (if mode = "full" then (tgTargetHealth tg).length else 0)) := by
  by_cases hm : mode = "full"
  · simp only [advTgStep, if_pos hm]
    rw [foldl_measures measures advHealthStep (fun _ => (0, 0, 0, 0, 1)) advHealthStep_measures,
      sum_map_const_unit]
    simp [measures, healthSum, hm, Prod.ext_iff]
  · simp only [advTgStep, if_neg hm]
    simp [measures, healthSum, hm, Prod.ext_iff]

theorem advListenerStep_measures (mode : String) (st : AdvAcc) (l : Listener) :
    measures (advListenerStep mode st l) = measures st +
      (0, 0, (if mode = "full" then (listenerRules l).length else 0), 0, 0) := by
  by_cases hm : mode = "full" <;>
    simp [advListenerStep, hm, measures, healthSum, Prod.ext_iff]

theorem advAlbStep_measures (mode : String) (st : AdvAcc) (alb : LoadBalancerRecord) :
    measures (advAlbStep mode st alb) = measures st +
      ((if isStdOrFull mode then albListenersLen alb else 0),
       (if isStdOrFull mode then albTgLen alb else 0),
       (if mode = "full" then albRulesLen alb else 0),
       (if mode = "full" then albTargetsLen alb else 0),
       (if mode = "full" then albTargetsLen alb else 0)) := by
  by_cases hsf : isStdOrFull mode = true
  · simp only [advAlbStep, if_pos hsf]
    rw [foldl_measures measures (advTgStep mode) _ (advTgStep_measures mode),
      measures_addTg,
      foldl_measures measures (advListenerStep mode) _ (advListenerStep_measures mode),
      measures_addListeners,
      sum_map5, sum_map5]
    simp only [sum_map_zero, sum_map_ite, hsf, if_pos]
    simp [measures, healthSum, albListenersLen, albTgLen, albRulesLen, albTargetsLen,
      Prod.ext_iff]
  · have hm : ¬ mode = "full" := by
      intro h
      rw [h] at hsf
      exact hsf rfl
    simp only [advAlbStep]
    rw [if_neg (by simpa using hsf)]
    simp [hsf, hm, Prod.ext_iff]

theorem advAccountStep_measures (st : AdvAcc) (a : AccountScan) :
    measures (advAccountStep st a) = measures st +
      ((getRegions a).map (fun r =>
        ((getLoadBalancers r).map (fun alb =>
          ((if isStdOrFull (accountMode a) then albListenersLen alb else 0),
           (if isStdOrFull (accountMode a) then albTgLen alb else 0),
           (if accountMode a = "full" then albRulesLen alb else 0),
           (if accountMode a = "full" then albTargetsLen alb else 0),
           (if accountMode a = "full" then albTargetsLen alb else 0)))).sum)).sum := by
  refine foldl_measures measures _ _ ?_ (getRegions a) st
  intro st r
  exact foldl_measures measures (advAlbStep (accountMode a)) _
    (advAlbStep_measures (accountMode a)) (getLoadBalancers r) st

theorem advFold_measures (doc : ScanDocument) :
    measures (advFold doc) =
      (listenersTotal doc, targetGroupsTotal doc, rulesTotal doc,
       targetsTotal doc, targetsTotal doc) := by
  have h := foldl_measures measures advAccountStep
    (fun a => ((getRegions a).map (fun r =>
        ((getLoadBalancers r).map (fun alb =>
          ((if isStdOrFull (accountMode a) then albListenersLen alb else 0),
           (if isStdOrFull (accountMode a) then albTgLen alb else 0),
           (if accountMode a = "full" then albRulesLen alb else 0),
           (if accountMode a = "full" then albTargetsLen alb else 0),
           (if accountMode a = "full" then albTargetsLen alb else 0)))).sum)).sum)
    advAccountStep_measures doc advInit
  rw [advFold] at *
  rw [h]
  have hinit : measures advInit = (0, 0, 0, 0, 0) := rfl
  rw [hinit]
  have hmap : ∀ a : AccountScan,
      ((getRegions a).map (fun r =>
        ((getLoadBalancers r).map (fun alb =>
          ((if isStdOrFull (accountMode a) then albListenersLen alb else 0),
           (if isStdOrFull (accountMode a) then albTgLen alb else 0),
           (if accountMode a = "full" then albRulesLen alb else 0),
           (if accountMode a = "full" then albTargetsLen alb else 0),
           (if accountMode a = "full" then albTargetsLen alb else 0)))).sum)).sum
      = ((if isStdOrFull (accountMode a) then accSum albListenersLen a else 0),
         (if isStdOrFull (accountMode a) then accSum albTgLen a else 0),
         (if accountMode a = "full" then accSum albRulesLen a else 0),
         (if accountMode a = "full" then accSum albTargetsLen a else 0),
         (if accountMode a = "full" then accSum albTargetsLen a else 0)) := by
    intro a
    have hinner : ∀ r : RegionScan,
        ((getLoadBalancers r).map (fun alb =>
          ((if isStdOrFull (accountMode a) then albListenersLen alb else 0),
           (if isStdOrFull (accountMode a) then albTgLen alb else 0),
           (if accountMode a = "full" then albRulesLen alb else 0),
           (if accountMode a = "full" then albTargetsLen alb else 0),
           (if accountMode a = "full" then albTargetsLen alb else 0)))).sum
        = ((if isStdOrFull (accountMode a) then ((getLoadBalancers r).map albListenersLen).sum else 0),
           (if isStdOrFull (accountMode a) then ((getLoadBalancers r).map albTgLen).sum else 0),
           (if accountMode a = "full" then ((getLoadBalancers r).map albRulesLen).sum else 0),
           (if accountMode a = "full" then ((getLoadBalancers r).map albTargetsLen).sum else 0),
           (if accountMode a = "full" then ((getLoadBalancers r).map albTargetsLen).sum else 0)) := by
      intro r
      rw [sum_map5]
      simp only [sum_map_ite]
    calc ((getRegions a).map _).sum
        = ((getRegions a).map (fun r =>
            ((if isStdOrFull (accountMode a) then ((getLoadBalancers r).map albListenersLen).sum else 0),
             (if isStdOrFull (accountMode a) then ((getLoadBalancers r).map albTgLen).sum else 0),
             (if accountMode a = "full" then ((getLoadBalancers r).map albRulesLen).sum else 0),
             (if accountMode a = "full" then ((getLoadBalancers r).map albTargetsLen).sum else 0),
             (if accountMode a = "full" then ((getLoadBalancers r).map albTargetsLen).sum else 0)))).sum := by
          exact congrArg List.sum (List.map_congr_left (fun r _ => hinner r))
      _ = _ := by
          rw [sum_map5]
          simp only [sum_map_ite]
          simp [accSum]
  rw [List.map_congr_left (fun a _ => hmap a), sum_map5]
  simp only [listenersTotal, targetGroupsTotal, rulesTotal, targetsTotal]
  simp [Prod.ext_iff]

/-- Claim C4 (amended): if no account's scan mode is standard or full,
`analyze_advanced_stats` returns the insufficient-scan-depth result
naming the required modes (not an error, no division anywhere); and when
the scan-mode map (keyed by account id, later duplicates overwriting
earlier ones) contains a standard-or-full entry, the statistics are
computed only from the accounts whose scan mode populates each field:
listeners and target groups from standard-or-full accounts, rules and
target health from full accounts only, with health percentages whose
denominator is the target total over full-mode accounts and all 0 when
that total is 0. -/
theorem claim_C4 (doc : ScanDocument) :
    ((∀ a ∈ doc, isStdOrFull (accountMode a) = false) →
      analyzeAdvancedStats doc = .insufficient ["standard", "full"]) ∧
    (hasAdvancedData doc = true →
      ∃ s, analyzeAdvancedStats doc = .stats s ∧
        s.acc.total_listeners = listenersTotal doc ∧
        s.acc.total_target_groups = targetGroupsTotal doc ∧
        s.acc.total_rules = rulesTotal doc ∧
        s.acc.total_targets = targetsTotal doc ∧
        healthSum s.acc = targetsTotal doc ∧
        s.full_report = (if hasFullMode doc then some (healthReport s.acc) else none) ∧
        (∀ e ∈ healthReport s.acc,
          e.2.2 = (if s.acc.total_targets > 0 then
            (e.2.1 : ℚ) / (s.acc.total_targets : ℚ) * 100 else 0)) ∧
        (s.acc.total_targets = 0 → ∀ e ∈ healthReport s.acc, e.2.2 = 0)) := by
  constructor
  · intro hall
    have hfalse : hasAdvancedData doc = false := by
      by_contra hc
      have : hasAdvancedData doc = true := by
        cases h : hasAdvancedData doc
        · exact absurd h hc
        · rfl
      obtain ⟨a, ha, hsf⟩ := hasAdvancedData_exists this
      rw [hall a ha] at hsf
      cases hsf
    simp [analyzeAdvancedStats, hfalse]
  · intro hadv
    refine ⟨⟨advFold doc,
      if hasFullMode doc then some (healthReport (advFold doc)) else none⟩,
      by simp [analyzeAdvancedStats, hadv], ?_⟩
    have hm := advFold_measures doc
    simp only [measures, Prod.ext_iff] at hm
    obtain ⟨h1, h2, h3, h4, h5⟩ := hm
    refine ⟨h1, h2, h3, h4, h5, rfl, ?_, ?_⟩
    · intro e he
      rcases List.mem_map.mp he with ⟨p, hp, rfl⟩
      rfl
    · intro h0 e he
      rcases List.mem_map.mp he with ⟨p, hp, rfl⟩
      show (if (advFold doc).total_targets > 0 then
        (p.2 : ℚ) / ((advFold doc).total_targets : ℚ) * 100 else 0) = 0
      rw [h0]
      norm_num

/-- Counterexample to C4 as stated: in `cdocC4` an account does qualify
(scan mode full), but both accounts share the id "Unknown" in the
scan-mode dict and the later quick account overwrites the earlier full
one, so `analyze_advanced_stats` returns the insufficient result instead
of computing statistics. -/
theorem claim_C4_counterexample :
    cdocC4.any (fun a => isStdOrFull (accountMode a)) = true ∧
    analyzeAdvancedStats cdocC4 = .insufficient ["standard", "full"] :=
  ⟨rfl, rfl⟩

/-- Witness for C4: the all-quick document gets the insufficient result;
a mixed full/quick document gets statistics drawn from the qualifying
accounts only. -/
theorem claim_C4_witness :
    ((∀ a ∈ wdocC2, isStdOrFull (accountMode a) = false) ∧
     analyzeAdvancedStats wdocC2 = .insufficient ["standard", "full"]) ∧
    (hasAdvancedData wdocC4 = true ∧
     ∃ s, analyzeAdvancedStats wdocC4 = .stats s ∧
       s.acc.total_listeners = listenersTotal wdocC4 ∧
       s.acc.total_target_groups = targetGroupsTotal wdocC4 ∧
       s.acc.total_rules = rulesTotal wdocC4 ∧
       s.acc.total_targets = targetsTotal wdocC4 ∧
       healthSum s.acc = targetsTotal wdocC4 ∧
       s.full_report = (if hasFullMode wdocC4 then some (healthReport s.acc) else none) ∧
       (∀ e ∈ healthReport s.acc,
         e.2.2 = (if s.acc.total_targets > 0 then
           (e.2.1 : ℚ) / (s.acc.total_targets : ℚ) * 100 else 0)) ∧
       (s.acc.total_targets = 0 → ∀ e ∈ healthReport s.acc, e.2.2 = 0)) :=
  ⟨⟨by decide, (claim_C4 wdocC2).1 (by decide)⟩,
   ⟨rfl, (claim_C4 wdocC4).2 rfl⟩⟩

/- ------------------------------------------------------------------ -/
/- Success characterizations for claims C1 and C10                    -/
/- ------------------------------------------------------------------ -/

theorem isOkE_reqRegion (r : RegionScan) :
    isOkE (reqRegion r) = r.region.isSome := by
  cases h : r.region <;> simp [reqRegion, h, isOkE]

theorem isOkE_reqAlbHasWaf (alb : LoadBalancerRecord) :
    isOkE (reqAlbHasWaf alb) = albWafKeyOk alb := by
  cases h : alb.waf_association with
  | none => simp [reqAlbHasWaf, reqWaf, h, isOkE, albWafKeyOk]
  | some w =>
    cases hw : w.has_waf <;>
      simp [reqAlbHasWaf, reqWaf, reqHasWaf, h, hw, isOkE, albWafKeyOk]

theorem isOkE_countWithWaf (albs : List LoadBalancerRecord) :
    isOkE (countWithWaf albs) = albs.all albWafKeyOk := by
  induction albs with
  | nil => rfl
  | cons alb rest ih =>
    have hk := isOkE_reqAlbHasWaf alb
    cases hb : reqAlbHasWaf alb with
    | error e =>
      rw [hb] at hk
      simp [countWithWaf, hb, isOkE, ← hk]
    | ok b =>
      rw [hb] at hk
      cases hr : countWithWaf rest with
      | error e =>
        rw [hr] at ih
        simp [countWithWaf, hb, hr, isOkE, ← hk, ← ih]
      | ok n =>
        rw [hr] at ih
        simp [countWithWaf, hb, hr, isOkE, ← hk, ← ih]

theorem isOkE_accountCounts (rs : List RegionScan) :
    isOkE (accountCounts rs) = rs.all (fun r => (getLoadBalancers r).all albWafKeyOk) := by
  induction rs with
  | nil => rfl
  | cons r rest ih =>
    have hk := isOkE_countWithWaf (getLoadBalancers r)
    cases hc : countWithWaf (getLoadBalancers r) with
    | error e =>
      rw [hc] at hk
      simp [accountCounts, hc, isOkE, ← hk]
    | ok w =>
      rw [hc] at hk
      cases hr : accountCounts rest with
      | error e =>
        rw [hr] at ih
        simp [accountCounts, hc, hr, isOkE, ← hk, ← ih]
      | ok tw =>
        obtain ⟨t, w'⟩ := tw
        rw [hr] at ih
        simp [accountCounts, hc, hr, isOkE, ← hk, ← ih]

theorem isOkE_wafCoverageAux (doc : List AccountScan) :
    isOkE (wafCoverageAux doc) = wafKeysOk doc := by
  induction doc with
  | nil => rfl
  | cons a rest ih =>
    have hk := isOkE_accountCounts (getRegions a)
    cases hc : accountCounts (getRegions a) with
    | error e =>
      rw [hc] at hk
      simp [wafCoverageAux, hc, isOkE, wafKeysOk, ← hk]
    | ok tw =>
      obtain ⟨t, w⟩ := tw
      rw [hc] at hk
      cases hr : wafCoverageAux rest with
      | error e =>
        rw [hr] at ih
        simp only [wafKeysOk] at ih
        simp [wafCoverageAux, hc, hr, isOkE, wafKeysOk, ← hk, ← ih]
      | ok res =>
        obtain ⟨stats, gt, gw, gwo⟩ := res
        rw [hr] at ih
        simp only [wafKeysOk] at ih
        simp [wafCoverageAux, hc, hr, isOkE, wafKeysOk, ← hk, ← ih]

theorem isOkE_analyzeWafCoverage (doc : ScanDocument) :
    isOkE (analyzeWafCoverage doc) = wafKeysOk doc := by
  have hk := isOkE_wafCoverageAux doc
  cases h : wafCoverageAux doc with
  | error e =>
    rw [h] at hk
    simp [analyzeWafCoverage, h, isOkE, ← hk]
  | ok res =>
    obtain ⟨stats, gt, gw, gwo⟩ := res
    rw [h] at hk
    simp [analyzeWafCoverage, h, isOkE, ← hk]

theorem isOkE_filterUnwaf (albs : List LoadBalancerRecord) :
    isOkE (filterUnwaf albs) = albs.all albWafKeyOk := by
  induction albs with
  | nil => rfl
  | cons alb rest ih =>
    have hk := isOkE_reqAlbHasWaf alb
    cases hb : reqAlbHasWaf alb with
    | error e =>
      rw [hb] at hk
      simp [filterUnwaf, hb, isOkE, ← hk]
    | ok b =>
      rw [hb] at hk
      cases hr : filterUnwaf rest with
      | error e =>
        rw [hr] at ih
        simp [filterUnwaf, hb, hr, isOkE, ← hk, ← ih]
      | ok u =>
        rw [hr] at ih
        simp [filterUnwaf, hb, hr, isOkE, ← hk, ← ih]

theorem isOkE_unwafRegions (acc : AccountScan) (rs : List RegionScan) :
    isOkE (unwafRegions acc rs) =
      rs.all (fun r => r.region.isSome && (getLoadBalancers r).all albWafKeyOk) := by
  induction rs with
  | nil => rfl
  | cons r rest ih =>
    have hreg := isOkE_reqRegion r
    cases hR : reqRegion r with
    | error e =>
      rw [hR] at hreg
      simp [unwafRegions, hR, isOkE, ← hreg]
    | ok reg =>
      rw [hR] at hreg
      have hk := isOkE_filterUnwaf (getLoadBalancers r)
      cases hu : filterUnwaf (getLoadBalancers r) with
      | error e =>
        rw [hu] at hk
        simp [unwafRegions, hR, hu, isOkE, ← hreg, ← hk]
      | ok u =>
        rw [hu] at hk
        cases hr : unwafRegions acc rest with
        | error e =>
          rw [hr] at ih
          simp [unwafRegions, hR, hu, hr, isOkE, ← hreg, ← hk, ← ih]
        | ok gs =>
          rw [hr] at ih
          simp [unwafRegions, hR, hu, hr, isOkE, ← hreg, ← hk, ← ih]

theorem isOkE_findWithoutWaf (doc : ScanDocument) :
    isOkE (findWithoutWaf doc) =
      doc.all (fun a => (getRegions a).all
        (fun r => r.region.isSome && (getLoadBalancers r).all albWafKeyOk)) := by
  induction doc with
  | nil => rfl
  | cons a rest ih =>
    have hg := isOkE_unwafRegions a (getRegions a)
    cases hG : unwafRegions a (getRegions a) with
    | error e =>
      rw [hG] at hg
      simp [findWithoutWaf, hG, isOkE, ← hg]
    | ok gs =>
      rw [hG] at hg
      cases hr : findWithoutWaf rest with
      | error e =>
        rw [hr] at ih
        simp [findWithoutWaf, hG, hr, isOkE, ← hg, ← ih]
      | ok groups =>
        rw [hr] at ih
        simp [findWithoutWaf, hG, hr, isOkE, ← hg, ← ih]

theorem isOkE_searchRegions (pat : String) (acc : AccountScan) (rs : List RegionScan) :
    isOkE (searchRegions pat acc rs) = rs.all (fun r => r.region.isSome) := by
  induction rs with
  | nil => rfl
  | cons r rest ih =>
    have hreg := isOkE_reqRegion r
    cases hR : reqRegion r with
    | error e =>
      rw [hR] at hreg
      simp [searchRegions, hR, isOkE, ← hreg]
    | ok reg =>
      rw [hR] at hreg
      cases hr : searchRegions pat acc rest with
      | error e =>
        rw [hr] at ih
        simp [searchRegions, hR, hr, isOkE, ← hreg, ← ih]
      | ok gs =>
        rw [hr] at ih
        simp [searchRegions, hR, hr, isOkE, ← hreg, ← ih]

theorem isOkE_search (doc : ScanDocument) (pat : String) :
    isOkE (search doc pat) = regionsOk doc := by
  induction doc with
  | nil => rfl
  | cons a rest ih =>
    have hg := isOkE_searchRegions pat a (getRegions a)
    cases hG : searchRegions pat a (getRegions a) with
    | error e =>
      rw [hG] at hg
      simp [search, hG, isOkE, regionsOk, ← hg]
    | ok gs =>
      rw [hG] at hg
      cases hr : search rest pat with
      | error e =>
        rw [hr] at ih
        simp only [regionsOk] at ih
        simp [search, hG, hr, isOkE, regionsOk, ← hg, ← ih]
      | ok gs2 =>
        rw [hr] at ih
        simp only [regionsOk] at ih
        simp [search, hG, hr, isOkE, regionsOk, ← hg, ← ih]

theorem isOkE_listRegions (rs : List RegionScan) :
    isOkE (listRegions rs) = rs.all (fun r => r.region.isSome) := by
  induction rs with
  | nil => rfl
  | cons r rest ih =>
    have hreg := isOkE_reqRegion r
    cases hR : reqRegion r with
    | error e =>
      rw [hR] at hreg
      simp [listRegions, hR, isOkE, ← hreg]
    | ok reg =>
      rw [hR] at hreg
      cases hr : listRegions rest with
      | error e =>
        rw [hr] at ih
        simp [listRegions, hR, hr, isOkE, ← hreg, ← ih]
      | ok gs =>
        rw [hr] at ih
        simp [listRegions, hR, hr, isOkE, ← hreg, ← ih]

theorem isOkE_listAllAlbs (doc : ScanDocument) :
    isOkE (listAllAlbs doc) = regionsOk doc := by
  induction doc with
  | nil => rfl
  | cons a rest ih =>
    have hg := isOkE_listRegions (getRegions a)
    cases hG : listRegions (getRegions a) with
    | error e =>
      rw [hG] at hg
      simp [listAllAlbs, hG, isOkE, regionsOk, ← hg]
    | ok gs =>
      rw [hG] at hg
      cases hr : listAllAlbs rest with
      | error e =>
        rw [hr] at ih
        simp only [regionsOk] at ih
        simp [listAllAlbs, hG, hr, isOkE, regionsOk, ← hg, ← ih]
      | ok gs2 =>
        rw [hr] at ih
        simp only [regionsOk] at ih
        simp [listAllAlbs, hG, hr, isOkE, regionsOk, ← hg, ← ih]

theorem isOkE_ctxRegions (aid prof : String) (rs : List RegionScan) :
    isOkE (ctxRegions aid prof rs) = rs.all (fun r => r.region.isSome) := by
  induction rs with
  | nil => rfl
  | cons r rest ih =>
    have hreg := isOkE_reqRegion r
    cases hR : reqRegion r with
    | error e =>
      rw [hR] at hreg
      simp [ctxRegions, hR, isOkE, ← hreg]
    | ok reg =>
      rw [hR] at hreg
      cases hr : ctxRegions aid prof rest with
      | error e =>
        rw [hr] at ih
        simp [ctxRegions, hR, hr, isOkE, ← hreg, ← ih]
      | ok cs =>
        rw [hr] at ih
        simp [ctxRegions, hR, hr, isOkE, ← hreg, ← ih]

theorem isOkE_recordsWithCtx (doc : ScanDocument) :
    isOkE (recordsWithCtx doc) = regionsOk doc := by
  induction doc with
  | nil => rfl
  | cons a rest ih =>
    have hg := isOkE_ctxRegions (getAccountId a) (getProfile a) (getRegions a)
    cases hG : ctxRegions (getAccountId a) (getProfile a) (getRegions a) with
    | error e =>
      rw [hG] at hg
      simp [recordsWithCtx, hG, isOkE, regionsOk, ← hg]
    | ok cs =>
      rw [hG] at hg
      cases hr : recordsWithCtx rest with
      | error e =>
        rw [hr] at ih
        simp only [regionsOk] at ih
        simp [recordsWithCtx, hG, hr, isOkE, regionsOk, ← hg, ← ih]
      | ok cs2 =>
        rw [hr] at ih
        simp only [regionsOk] at ih
        simp [recordsWithCtx, hG, hr, isOkE, regionsOk, ← hg, ← ih]

theorem isOkE_exportCsv (doc : ScanDocument) :
    isOkE (exportCsv doc) = regionsOk doc := by
  have hk := isOkE_recordsWithCtx doc
  cases h : recordsWithCtx doc with
  | error e =>
    rw [h] at hk
    simp [exportCsv, h, isOkE, ← hk]
  | ok cs =>
    rw [h] at hk
    simp [exportCsv, h, isOkE, ← hk]

theorem isOkE_regionStatsRegions (m : List (String × Nat × Nat)) (rs : List RegionScan) :
    isOkE (regionStatsRegions m rs) =
      rs.all (fun r => r.region.isSome && (getLoadBalancers r).all albWafKeyOk) := by
  induction rs generalizing m with
  | nil => rfl
  | cons r rest ih =>
    have hreg := isOkE_reqRegion r
    cases hR : reqRegion r with
    | error e =>
      rw [hR] at hreg
      simp [regionStatsRegions, hR, isOkE, ← hreg]
    | ok reg =>
      rw [hR] at hreg
      have hk := isOkE_countWithWaf (getLoadBalancers r)
      cases hc : countWithWaf (getLoadBalancers r) with
      | error e =>
        rw [hc] at hk
        simp [regionStatsRegions, hR, hc, isOkE, ← hreg, ← hk]
      | ok w =>
        rw [hc] at hk
        have hstep : regionStatsRegions m (r :: rest) =
            regionStatsRegions (bumpRegion m reg (getLoadBalancers r).length w) rest := by
          simp [regionStatsRegions, hR, hc]
        have h1 : r.region.isSome = true := by rw [← hreg]; rfl
        have h2 : (getLoadBalancers r).all albWafKeyOk = true := by rw [← hk]; rfl
        rw [hstep, ih, List.all_cons, h1, h2]
        simp

theorem isOkE_regionStatsAux (m : List (String × Nat × Nat)) (doc : ScanDocument) :
    isOkE (regionStatsAux m doc) =
      doc.all (fun a => (getRegions a).all
        (fun r => r.region.isSome && (getLoadBalancers r).all albWafKeyOk)) := by
  induction doc generalizing m with
  | nil => rfl
  | cons a rest ih =>
    have hg := isOkE_regionStatsRegions m (getRegions a)
    cases hG : regionStatsRegions m (getRegions a) with
    | error e =>
      rw [hG] at hg
      simp [regionStatsAux, hG, isOkE, ← hg]
    | ok m' =>
      rw [hG] at hg
      have hstep : regionStatsAux m (a :: rest) = regionStatsAux m' rest := by
        simp [regionStatsAux, hG]
      have h1 : ((getRegions a).all
          (fun r => r.region.isSome && (getLoadBalancers r).all albWafKeyOk)) = true := by
        rw [← hg]; rfl
      rw [hstep, ih, List.all_cons, h1]
      simp

theorem isOkE_analyzeByRegion (doc : ScanDocument) :
    isOkE (analyzeByRegion doc) =
      doc.all (fun a => (getRegions a).all
        (fun r => r.region.isSome && (getLoadBalancers r).all albWafKeyOk)) := by
  have hk := isOkE_regionStatsAux [] doc
  cases h : regionStatsAux [] doc with
  | error e =>
    rw [h] at hk
    simp [analyzeByRegion, h, isOkE, ← hk]
  | ok m =>
    rw [h] at hk
    simp [analyzeByRegion, h, isOkE, ← hk]

theorem all_and_distrib {α : Type} (l : List α) (p q : α → Bool) :
    l.all (fun x => p x && q x) = (l.all p && l.all q) := by
  induction l with
  | nil => rfl
  | cons x rest ih =>
    simp only [List.all_cons, ih]
    cases p x <;> cases q x <;> cases rest.all p <;> cases rest.all q <;> rfl

theorem findWithoutWaf_ok_eq (doc : ScanDocument) :
    isOkE (findWithoutWaf doc) = (regionsOk doc && wafKeysOk doc) := by
  rw [isOkE_findWithoutWaf]
  simp only [all_and_distrib]
  rfl

theorem analyzeByRegion_ok_eq (doc : ScanDocument) :
    isOkE (analyzeByRegion doc) = (regionsOk doc && wafKeysOk doc) := by
  rw [isOkE_analyzeByRegion]
  simp only [all_and_distrib]
  rfl

theorem regionsOk_no_missing {doc : ScanDocument} (h : regionsOk doc = true) :
    hasRegionWithoutKey doc = false := by
  cases hc : hasRegionWithoutKey doc
  · rfl
  · simp only [hasRegionWithoutKey, List.any_eq_true] at hc
    obtain ⟨a, ha, r, hr, hnone⟩ := hc
    simp only [regionsOk, List.all_eq_true] at h
    have := h a ha r hr
    rw [Option.isNone_iff_eq_none] at hnone
    rw [hnone] at this
    cases this

theorem wafKeysOk_no_missing {doc : ScanDocument} (h : wafKeysOk doc = true) :
    hasRecordWithoutWafKey doc = false := by
  cases hc : hasRecordWithoutWafKey doc
  · rfl
  · simp only [hasRecordWithoutWafKey, List.any_eq_true] at hc
    obtain ⟨a, ha, r, hr, alb, halb, hnone⟩ := hc
    simp only [wafKeysOk, List.all_eq_true] at h
    have := h a ha r hr alb halb
    rw [Option.isNone_iff_eq_none] at hnone
    simp [albWafKeyOk, hnone] at this

/-- Claim C1 (amended): a missing `waf_association` key aborts exactly
the three operations that bracket-access it (`analyze_waf_coverage`,
`find_without_waf`, `analyze_by_region`); the listing, `search` and
`export_csv` operations never raise on it (they default-substitute), and
no operation raises when only optional fields are absent: presence of
the `region` keys and of `waf_association`/`has_waf` suffices for every
operation to succeed. -/
theorem claim_C1 (doc : ScanDocument) :
    (hasRecordWithoutWafKey doc = true →
      isOkE (analyzeWafCoverage doc) = false ∧
      isOkE (findWithoutWaf doc) = false ∧
      isOkE (analyzeByRegion doc) = false) ∧
    (regionsOk doc = true →
      isOkE (listAllAlbs doc) = true ∧
      (∀ pat, isOkE (search doc pat) = true) ∧
      isOkE (exportCsv doc) = true) ∧
    (wafKeysOk doc = true → isOkE (analyzeWafCoverage doc) = true) ∧
    (regionsOk doc = true → wafKeysOk doc = true →
      isOkE (findWithoutWaf doc) = true ∧ isOkE (analyzeByRegion doc) = true) := by
  refine ⟨?_, ?_, ?_, ?_⟩
  · intro h
    have hwf : wafKeysOk doc = false := by
      cases hw : wafKeysOk doc
      · rfl
      · rw [wafKeysOk_no_missing hw] at h
        cases h
    refine ⟨?_, ?_, ?_⟩
    · rw [isOkE_analyzeWafCoverage, hwf]
    · rw [findWithoutWaf_ok_eq, hwf, Bool.and_false]
    · rw [analyzeByRegion_ok_eq, hwf, Bool.and_false]
  · intro h
    exact ⟨by rw [isOkE_listAllAlbs, h],
      fun pat => by rw [isOkE_search, h],
      by rw [isOkE_exportCsv, h]⟩
  · intro h
    rw [isOkE_analyzeWafCoverage, h]
  · intro h1 h2
    constructor
    · rw [findWithoutWaf_ok_eq, h1, h2]
      rfl
    · rw [analyzeByRegion_ok_eq, h1, h2]
      rfl

/-- Counterexample to C1 as stated: `export_csv` reads `waf_association`
with a defaulting `.get`, so on a record whose `waf_association` key is
absent it succeeds (emitting `Has_WAF = "No"`) instead of raising. -/
theorem claim_C1_counterexample :
    hasRecordWithoutWafKey cdocC1 = true ∧ isOkE (exportCsv cdocC1) = true :=
  ⟨rfl, rfl⟩

/-- Witness for C1: the error half at a document with a record lacking
`waf_association`, the success halves at a fully keyed document. -/
theorem claim_C1_witness :
    (hasRecordWithoutWafKey cdocC1 = true ∧
     (isOkE (analyzeWafCoverage cdocC1) = false ∧
      isOkE (findWithoutWaf cdocC1) = false ∧
      isOkE (analyzeByRegion cdocC1) = false)) ∧
    (regionsOk wdocC2 = true ∧
     (isOkE (listAllAlbs wdocC2) = true ∧
      (∀ pat, isOkE (search wdocC2 pat) = true) ∧
      isOkE (exportCsv wdocC2) = true)) ∧
    (wafKeysOk wdocC2 = true ∧ isOkE (analyzeWafCoverage wdocC2) = true) ∧
    (isOkE (findWithoutWaf wdocC2) = true ∧ isOkE (analyzeByRegion wdocC2) = true) :=
  ⟨⟨rfl, (claim_C1 cdocC1).1 rfl⟩,
   ⟨rfl, (claim_C1 wdocC2).2.1 rfl⟩,
   ⟨rfl, (claim_C1 wdocC2).2.2.1 rfl⟩,
   (claim_C1 wdocC2).2.2.2 rfl rfl⟩

theorem getLoadBalancers_erase (r : RegionScan) :
    getLoadBalancers (eraseRegion r) = getLoadBalancers r := rfl

theorem getRegions_eraseAccount (a : AccountScan) :
    getRegions (eraseAccount a) = (getRegions a).map eraseRegion := rfl

theorem getAccountId_eraseAccount (a : AccountScan) :
    getAccountId (eraseAccount a) = getAccountId a := rfl

theorem getProfile_eraseAccount (a : AccountScan) :
    getProfile (eraseAccount a) = getProfile a := rfl

theorem accountMode_eraseAccount (a : AccountScan) :
    accountMode (eraseAccount a) = accountMode a := rfl

theorem accountCounts_erase (rs : List RegionScan) :
    accountCounts (rs.map eraseRegion) = accountCounts rs := by
  induction rs with
  | nil => rfl
  | cons r rest ih =>
    simp only [List.map_cons, accountCounts, getLoadBalancers_erase, ih]

theorem wafCoverageAux_erase (doc : ScanDocument) :
    wafCoverageAux (eraseRegionKeys doc) = wafCoverageAux doc := by
  induction doc with
  | nil => rfl
  | cons a rest ih =>
    show wafCoverageAux (eraseAccount a :: eraseRegionKeys rest) = _
    simp only [wafCoverageAux, getRegions_eraseAccount, accountCounts_erase,
      getAccountId_eraseAccount, getProfile_eraseAccount, ih]

theorem analyzeWafCoverage_erase (doc : ScanDocument) :
    analyzeWafCoverage (eraseRegionKeys doc) = analyzeWafCoverage doc := by
  simp only [analyzeWafCoverage, wafCoverageAux_erase]

theorem typeStats_erase (doc : ScanDocument) :
    typeStats (eraseRegionKeys doc) = typeStats doc := by
  simp only [typeStats, eraseRegionKeys, List.foldl_map, getRegions_eraseAccount,
    getLoadBalancers_erase]

theorem analyzeByType_erase (doc : ScanDocument) :
    analyzeByType (eraseRegionKeys doc) = analyzeByType doc := by
  simp only [analyzeByType, typeStats_erase]

theorem advAccountStep_erase (st : AdvAcc) (a : AccountScan) :
    advAccountStep st (eraseAccount a) = advAccountStep st a := by
  simp only [advAccountStep, getRegions_eraseAccount, accountMode_eraseAccount,
    List.foldl_map, getLoadBalancers_erase]

theorem advFold_erase (doc : ScanDocument) :
    advFold (eraseRegionKeys doc) = advFold doc := by
  simp only [advFold, eraseRegionKeys, List.foldl_map, advAccountStep_erase]

theorem scanModes_erase (doc : ScanDocument) :
    scanModes (eraseRegionKeys doc) = scanModes doc := by
  simp only [scanModes, eraseRegionKeys, List.foldl_map, getAccountId_eraseAccount,
    accountMode_eraseAccount]

theorem analyzeAdvancedStats_erase (doc : ScanDocument) :
    analyzeAdvancedStats (eraseRegionKeys doc) = analyzeAdvancedStats doc := by
  simp only [analyzeAdvancedStats, hasAdvancedData, hasFullMode, scanModes_erase,
    advFold_erase]

/-- Claim C10 (amended): the operations that read the `region` key
(listing, `find_without_waf`, `analyze_by_region`, `search`,
`export_csv`) abort with a KeyError whenever some region object lacks
it, so `region` is load-bearing for them just like `waf_association`;
but the tolerant operations are exactly those that never read the key —
`analyze_by_type`, and also `analyze_waf_coverage` and
`analyze_advanced_stats`, whose results are unchanged when every
`region` key is deleted. -/
theorem claim_C10 (doc : ScanDocument) :
    (hasRegionWithoutKey doc = true →
      isOkE (listAllAlbs doc) = false ∧
      isOkE (findWithoutWaf doc) = false ∧
      isOkE (analyzeByRegion doc) = false ∧
      (∀ pat, isOkE (search doc pat) = false) ∧
      isOkE (exportCsv doc) = false) ∧
    analyzeByType (eraseRegionKeys doc) = analyzeByType doc ∧
    analyzeWafCoverage (eraseRegionKeys doc) = analyzeWafCoverage doc ∧
    analyzeAdvancedStats (eraseRegionKeys doc) = analyzeAdvancedStats doc := by
  refine ⟨?_, analyzeByType_erase doc, analyzeWafCoverage_erase doc,
    analyzeAdvancedStats_erase doc⟩
  intro h
  have hro : regionsOk doc = false := by
    cases hr : regionsOk doc
    · rfl
    · rw [regionsOk_no_missing hr] at h
      cases h
  refine ⟨by rw [isOkE_listAllAlbs, hro],
    by rw [findWithoutWaf_ok_eq, hro]; rfl,
    by rw [analyzeByRegion_ok_eq, hro]; rfl,
    fun pat => by rw [isOkE_search, hro],
    by rw [isOkE_exportCsv, hro]⟩

/-- Counterexample to C10 as stated: `analyze_waf_coverage` never reads
the `region` key, so it succeeds on a document whose only region object
lacks it — `distribution_by_type` is not the only tolerant operation. -/
theorem claim_C10_counterexample :
    hasRegionWithoutKey cdocC10 = true ∧ isOkE (analyzeWafCoverage cdocC10) = true :=
  ⟨rfl, rfl⟩

/-- Witness for C10 at a document with a keyless region object. -/
theorem claim_C10_witness :
    hasRegionWithoutKey cdocC10 = true ∧
    (isOkE (listAllAlbs cdocC10) = false ∧
     isOkE (findWithoutWaf cdocC10) = false ∧
     isOkE (analyzeByRegion cdocC10) = false ∧
     (∀ pat, isOkE (search cdocC10 pat) = false) ∧
     isOkE (exportCsv cdocC10) = false) :=
  ⟨rfl, (claim_C10 cdocC10).1 rfl⟩

end AlbAnalyzer
